import Mathlib

/-!
Verification of the queueing model in qmodels (src/qmodels/mg1.py).

The repository builds an M/G/1 queue on top of the external simulus
discrete-event engine.  This file gives a shallow embedding of:

  * the mg1 class (seed wiring of the two variate streams, the arrival
    generator process, the customer process, the capacity-1 server
    resource with a statistics collector), mg1.py lines 15-36;
  * the simrun driver (fresh simulator and collector per trial, run for
    1000 simulated time units, mean of the collected system times),
    mg1.py lines 38-43;
  * the main block (demonstration run with bounds a=0, b=0.8, then a
    sweep of 10 values of b from 0.1 to 3.0, 25 trials each, printing a
    tab-separated table), mg1.py lines 45-70.

The simulus engine itself is an external dependency; it is embedded
operationally following the interface contract stated in the spec
(simulator, run, sleep, process, resource with collect, acquire,
release, num_in_system, per-simulator rng).  Simulated time is ℚ.
Variate draws are parameters of the embedding: the generators of
qmodels/rng.py are not part of the given source tree, so they appear
only as abstract seed-indexed families of draws.
-/

/-- Simulated clock values and durations. -/
abbrev Time := ℚ

/-- What the module-global name `sim` denotes while a customer process runs:
the very simulator the run is driven by (the demonstration run), a different
simulator whose clock is frozen at some value (every sweep trial, where the
global `sim` is the finished demonstration simulator), or no binding at all
(the module was imported and no caller defined a global `sim`). -/
inductive GlobalClock
  | selfSim : GlobalClock
  | other : Time → GlobalClock
  | unbound : GlobalClock
  deriving DecidableEq

/-- Which variate stream a cooperative sleep draws its duration from:
`next(self.inter_arrival_time)` at mg1.py line 26 or
`next(self.service_time)` at mg1.py line 33. -/
inductive SleepSrc
  | interArrival : SleepSrc
  | service : SleepSrc
  deriving DecidableEq

/-- Suspension points of the two process bodies in mg1.py.
`genArrSleep k` is the arrival generator at the top of loop iteration k,
about to sleep (line 26); `genArrSpawn k` is the generator resumed after
that sleep, about to spawn one customer (line 27) and loop.
`custStart` is a customer at its entry point (lines 30-32: log, acquire);
`custAcquired a` is a customer that arrived at time `a`, was queued, and
has just been granted the server (about to draw a service time, line 33);
`custFinish a` is a customer resumed after its service sleep
(lines 34-36: log, release). -/
inductive Proc
  | genArrSleep : ℕ → Proc
  | genArrSpawn : ℕ → Proc
  | custStart : Proc
  | custAcquired : Time → Proc
  | custFinish : Time → Proc
  deriving DecidableEq

/-- A pending event of the simulus event list: a timestamp, a serial number
(used to break timestamp ties deterministically), the process it resumes
and the continuation it resumes at. -/
structure Ev where
  time : Time
  seq : ℕ
  pid : ℕ
  proc : Proc
  deriving DecidableEq

/-- Observable actions of a run, tagged with the acting process id.
`logA p shown now before after` is an informational log whose printed
timestamp is `shown` (the clock of whatever the global name `sim` denotes)
while the running simulator clock is `now`, announcing an occupancy
transition `before -> after`.  `acquireA p a` is the resource acquire of
customer `p` that arrived at time `a`; `recordA p x` is the collector
recording the system-time sample `x` when `p` releases. -/
inductive Act
  | logA : ℕ → Time → Time → ℤ → ℤ → Act
  | acquireA : ℕ → Time → Act
  | sleepA : ℕ → SleepSrc → Time → Act
  | spawnA : ℕ → ℕ → Act
  | releaseA : ℕ → Act
  | recordA : ℕ → Time → Act
  deriving DecidableEq

/-- The process id an action belongs to (the acting process). -/
def Act.actor : Act → ℕ
  | .logA p _ _ _ _ => p
  | .acquireA p _ => p
  | .sleepA p _ _ => p
  | .spawnA p _ => p
  | .releaseA p => p
  | .recordA p _ => p

/-- Whether an action is an informational log message. -/
def Act.isLog : Act → Bool
  | .logA _ _ _ _ _ => true
  | _ => false

/-- The timestamp a log action actually printed (0 for non-log actions). -/
def Act.loggedTime : Act → Time
  | .logA _ shown _ _ _ => shown
  | _ => 0

/-- Whether an action is a resource acquire. -/
def Act.isAcquire : Act → Bool
  | .acquireA _ _ => true
  | _ => false

/-- Whether an action is a resource release. -/
def Act.isRelease : Act → Bool
  | .releaseA _ => true
  | _ => false

/-- Whether an action is the collector recording a system-time sample. -/
def Act.isRecord : Act → Bool
  | .recordA _ _ => true
  | _ => false

/-- State of the capacity-1 server resource built at mg1.py line 21 by
`sim.resource(collect=dc)`: the (at most one) process holding the server,
the FIFO queue of blocked acquirers together with their arrival times, and
the occupancy count returned by `num_in_system()` (incremented on acquire,
decremented on release, so it counts waiting and served entities alike). -/
structure Resource where
  inService : List ℕ
  waitq : List (ℕ × Time)
  num_in_system : ℤ
  deriving DecidableEq

/-- Global state of one simulator run: current clock, pending event list,
next event serial number, next fresh process id, the server resource, the
system-time samples accumulated by the data collector, the index of the
next service-time draw, the trace of observable actions so far, and an
error flag set when a process dies of an uncaught exception. -/
structure SimState where
  now : Time
  evs : List Ev
  nextSeq : ℕ
  nextPid : ℕ
  res : Resource
  samples : List Time
  svIdx : ℕ
  trace : List Act
  err : Bool
  deriving DecidableEq

/-- Parameters of one engine run: the inter-arrival drawn durations (the
stream `self.inter_arrival_time` as the sequence of its successive draws),
the service drawn durations (`self.service_time` likewise), the stop time
passed to `sim.run`, what the module-global name `sim` denotes, and whether
a data collector was wired to the resource (`dc` at mg1.py line 21 --
`None` in the demonstration run, a fresh DataCollector in `simrun`). -/
structure EngineParams where
  iat : ℕ → Time
  sv : ℕ → Time
  stop : Time
  gclock : GlobalClock
  collect : Bool

/-- Evaluation of the expression `sim.now` inside the customer body
(mg1.py lines 30 and 34): the bare name `sim` is looked up among the
module globals, so the value is the global simulator clock when one is
bound and a NameError otherwise; the running simulator clock `s.now` is
used only when the global `sim` happens to be this very simulator. -/
def shownNow (P : EngineParams) (s : SimState) : Option Time :=
  match P.gclock with
  | .selfSim => some s.now
  | .other t => some t
  | .unbound => none

/-- Append one pending event at the next serial number. -/
def schedule (s : SimState) (t : Time) (p : ℕ) (pr : Proc) : SimState :=
  { s with evs := s.evs ++ [⟨t, s.nextSeq, p, pr⟩], nextSeq := s.nextSeq + 1 }

/-- Execute the atomic segment of one popped event: the resumed process
runs its body (mg1.py lines 24-36) until it suspends, blocks or ends.
The caller has already removed the event and advanced `s.now` to its
timestamp. -/
def exec (P : EngineParams) (s : SimState) (e : Ev) : SimState :=
  match e.proc with
  | .genArrSleep k =>
      { s with
        evs := s.evs ++ [⟨s.now + P.iat k, s.nextSeq, e.pid, .genArrSpawn k⟩],
        nextSeq := s.nextSeq + 1,
        trace := s.trace ++ [.sleepA e.pid .interArrival (P.iat k)] }
  | .genArrSpawn k =>
      { s with
        evs := s.evs ++ [⟨s.now, s.nextSeq, s.nextPid, .custStart⟩,
                         ⟨s.now + P.iat (k+1), s.nextSeq + 1, e.pid, .genArrSpawn (k+1)⟩],
        nextSeq := s.nextSeq + 2,
        nextPid := s.nextPid + 1,
        trace := s.trace ++ [.spawnA e.pid s.nextPid, .sleepA e.pid .interArrival (P.iat (k+1))] }
  | .custStart =>
      match shownNow P s with
      | none => { s with err := true }
      | some t =>
        if s.res.inService = [] then
          { s with
            res := ⟨[e.pid], s.res.waitq, s.res.num_in_system + 1⟩,
            evs := s.evs ++ [⟨s.now + P.sv s.svIdx, s.nextSeq, e.pid, .custFinish s.now⟩],
            nextSeq := s.nextSeq + 1,
            svIdx := s.svIdx + 1,
            trace := s.trace ++ [.logA e.pid t s.now s.res.num_in_system (s.res.num_in_system + 1),
                                 .acquireA e.pid s.now,
                                 .sleepA e.pid .service (P.sv s.svIdx)] }
        else
          { s with
            res := ⟨s.res.inService, s.res.waitq ++ [(e.pid, s.now)], s.res.num_in_system + 1⟩,
            trace := s.trace ++ [.logA e.pid t s.now s.res.num_in_system (s.res.num_in_system + 1),
                                 .acquireA e.pid s.now] }
  | .custAcquired a =>
      { s with
        evs := s.evs ++ [⟨s.now + P.sv s.svIdx, s.nextSeq, e.pid, .custFinish a⟩],
        nextSeq := s.nextSeq + 1,
        svIdx := s.svIdx + 1,
        trace := s.trace ++ [.sleepA e.pid .service (P.sv s.svIdx)] }
  | .custFinish a =>
      match shownNow P s with
      | none => { s with err := true }
      | some t =>
        match s.res.waitq with
        | [] =>
          { s with
            res := ⟨[], [], s.res.num_in_system - 1⟩,
            samples := if P.collect then s.samples ++ [s.now - a] else s.samples,
            trace := s.trace ++ ([.logA e.pid t s.now s.res.num_in_system (s.res.num_in_system - 1),
                                  .releaseA e.pid]
                       ++ if P.collect then [.recordA e.pid (s.now - a)] else []) }
        | (q, aq) :: rest =>
          { s with
            res := ⟨[q], rest, s.res.num_in_system - 1⟩,
            evs := s.evs ++ [⟨s.now, s.nextSeq, q, .custAcquired aq⟩],
            nextSeq := s.nextSeq + 1,
            samples := if P.collect then s.samples ++ [s.now - a] else s.samples,
            trace := s.trace ++ ([.logA e.pid t s.now s.res.num_in_system (s.res.num_in_system - 1),
                                  .releaseA e.pid]
                       ++ if P.collect then [.recordA e.pid (s.now - a)] else []) }

/-- Pick the pending event with the least (time, serial) key. -/
def pickMin : List Ev → Option Ev
  | [] => none
  | e :: es =>
      match pickMin es with
      | none => some e
      | some m =>
          some (if e.time < m.time then e
                else if m.time < e.time then m
                else if e.seq ≤ m.seq then e else m)

/-- One scheduler step of `sim.run`: pop the earliest pending event if its
timestamp has not passed the stop time, advance the clock to it and execute
its atomic segment.  A run that has raised an exception makes no progress. -/
def stepSim (P : EngineParams) (s : SimState) : SimState :=
  if s.err then s
  else
    match pickMin s.evs with
    | none => s
    | some e =>
        if e.time ≤ P.stop then exec P { s with evs := s.evs.erase e, now := e.time } e
        else s

/-- Iterate the scheduler a bounded number of steps. -/
def runFuel (P : EngineParams) : ℕ → SimState → SimState
  | 0, s => s
  | n+1, s => runFuel P n (stepSim P s)

/-- Initial state right after `mg1.__init__` registered the arrival
generator with `sim.process(self.gen_arrivals)` (mg1.py line 22): the clock
is 0, the data collector is empty, the resource is idle, and the single
pending event starts the generator (process id 0) at time 0. -/
def initSim : SimState :=
  { now := 0,
    evs := [⟨0, 0, 0, .genArrSleep 0⟩],
    nextSeq := 1,
    nextPid := 1,
    res := ⟨[], [], 0⟩,
    samples := [],
    svIdx := 0,
    trace := [],
    err := false }

/-- A simulus simulator as seen by mg1.__init__: its private random source
(`sim.rng()`), embedded as a fixed stream of raw values together with the
index of the next value to be produced, and its clock. -/
structure Simulator where
  rngStream : ℕ → ℕ
  rngIdx : ℕ
  now : Time

/-- `sim.rng().randrange(n)`: produce the next value of the simulator-owned
random source reduced into `[0, n)`, advancing the source. -/
def randrange (sim : Simulator) (n : ℕ) : ℕ × Simulator :=
  (sim.rngStream sim.rngIdx % n, { sim with rngIdx := sim.rngIdx + 1 })

/-- Modelled from the spec: the variate generators `expon` and `truncnorm`
of qmodels/rng.py are not under src/.  Per the spec they are lazy, infinite,
non-restartable streams, deterministic given distribution parameters and a
seed; they are embedded as abstract families giving, for each parameter
tuple and seed, the sequence of successive draws. -/
structure DrawModel where
  exponDraw : ℚ → ℕ → ℕ → Time
  truncnormDraw : ℚ → ℚ → ℕ → ℕ → Time

/-- The mg1 model state after `__init__` (mg1.py lines 15-22): the two
variate streams with the seeds they were constructed with, each seed a
fresh 32-bit draw from the owning simulator random source. -/
structure Mg1 where
  mean_iat : ℚ
  svtime_a : ℚ
  svtime_b : ℚ
  iatSeed : ℕ
  svSeed : ℕ
  iat : ℕ → Time
  sv : ℕ → Time

/-- `mg1.__init__(sim, mean_iat, svtime_a, svtime_b, dc)` (mg1.py lines
15-22): draw one 32-bit seed for the exponential inter-arrival stream and a
second 32-bit seed for the truncated-normal service stream, both from
`sim.rng()`, then build the resource and register the arrival generator.
Returns the model together with the simulator whose random source advanced
by the two draws. -/
def mg1Init (D : DrawModel) (sim : Simulator) (mean_iat svtime_a svtime_b : ℚ) :
    Mg1 × Simulator :=
  let r1 := randrange sim (2 ^ 32)
  let r2 := randrange r1.2 (2 ^ 32)
  ({ mean_iat := mean_iat,
     svtime_a := svtime_a,
     svtime_b := svtime_b,
     iatSeed := r1.1,
     svSeed := r2.1,
     iat := D.exponDraw mean_iat r1.1,
     sv := D.truncnormDraw svtime_a svtime_b r2.1 }, r2.2)

/-- `dc.system_times.mean()`: the mean of a data series, undefined (NaN,
embedded as `none`) when no sample was accumulated.  Neither simrun nor the
collector guards the empty case. -/
def dsMean (xs : List Time) : Option Time :=
  if xs = [] then none else some (xs.sum / xs.length)

/-- The world shared between successive `simulus.simulator()` calls: how
many simulators were created so far, and the fixed family assigning to the
i-th created simulator its private random stream (derived deterministically
from the process-wide seed set by `random.seed(13579)`). -/
structure World where
  simCount : ℕ
  simulatorRng : ℕ → ℕ → ℕ

/-- `simulus.simulator()`: a brand-new simulator at clock 0 whose random
source has produced nothing yet. -/
def newSimulator (w : World) : Simulator × World :=
  ({ rngStream := w.simulatorRng w.simCount, rngIdx := 0, now := 0 },
   { w with simCount := w.simCount + 1 })

/-- The stop time `sim.run(1000)` of one trial (mg1.py line 42). -/
def simrunEndTime : Time := 1000

/-- The mean inter-arrival time `1.2` passed by the drivers to mg1. -/
def simrunMeanIat : ℚ := 6 / 5

/-- The engine parameters of one `simrun(a, b)` trial given the random
stream of the fresh trial simulator: the two variate streams are seeded by
the first two 32-bit draws of that stream, the run lasts 1000 simulated
time units, and a fresh data collector is wired to the resource. -/
def simrunParams (D : DrawModel) (g : GlobalClock) (a b : ℚ) (rng : ℕ → ℕ) :
    EngineParams :=
  let q := (mg1Init D ⟨rng, 0, 0⟩ simrunMeanIat a b).1
  { iat := q.iat, sv := q.sv, stop := simrunEndTime, gclock := g, collect := true }

/-- The value of one trial as a pure function of the bounds and of the
random stream of the simulator this trial created: run 1000 simulated time
units from the initial state and take the mean of the samples the fresh
collector accumulated. -/
def pureSimrun (D : DrawModel) (fuel : ℕ) (g : GlobalClock) (a b : ℚ)
    (rng : ℕ → ℕ) : Option Time :=
  dsMean ((runFuel (simrunParams D g a b rng) fuel initSim).samples)

/-- `simrun(a, b)` (mg1.py lines 38-43): create an anonymous simulator and
a fresh DataCollector, build an mg1 queue on them, run for 1000 simulated
time units and return the mean of the collected system times.  The only
thing threaded between calls is the world that hands out fresh simulators. -/
def simrunW (D : DrawModel) (fuel : ℕ) (g : GlobalClock) (a b : ℚ)
    (w : World) : Option Time × World :=
  let sw := newSimulator w
  let P := simrunParams D g a b sw.1.rngStream
  (dsMean ((runFuel P fuel initSim).samples), sw.2)

/-- `np.linspace(lo, hi, n)`: n evenly spaced values from lo to hi with
both endpoints included. -/
def linspace (lo hi : ℚ) (n : ℕ) : List ℚ :=
  (List.range n).map (fun i => lo + i * (hi - lo) / ((n : ℚ) - 1))

/-- Sequence a list of possibly-undefined values: `none` (NaN) propagates. -/
def seqOpt : List (Option ℚ) → Option (List ℚ)
  | [] => some []
  | x :: xs => match x, seqOpt xs with
      | some v, some vs => some (v :: vs)
      | _, _ => none

/-- `z.mean()` over the array of trial results: NaN as soon as one trial
was NaN, the arithmetic mean otherwise (undefined on an empty array). -/
def npMeanOpt (zs : List (Option ℚ)) : Option ℚ :=
  match seqOpt zs with
  | none => none
  | some vs => dsMean vs

/-- Insert a value into an ascending list. -/
def insertAsc (x : ℚ) : List ℚ → List ℚ
  | [] => [x]
  | y :: ys => if x ≤ y then x :: y :: ys else y :: insertAsc x ys

/-- Sort ascending (insertion sort). -/
def sortAsc (xs : List ℚ) : List ℚ := xs.foldr insertAsc []

/-- `np.percentile(xs, q)` with the default linear interpolation: place the
rank `q/100 * (n-1)` in the ascending sort and interpolate between its two
neighbouring order statistics. -/
def npPercentile (q : ℚ) (xs : List ℚ) : Option ℚ :=
  if xs = [] then none
  else
    let ys := sortAsc xs
    let pos := q * ((xs.length : ℚ) - 1) / 100
    let i := (⌊pos⌋).toNat
    let frac := pos - (⌊pos⌋ : ℚ)
    let lo := ys.getD i 0
    let hi := ys.getD (i + 1) lo
    some (lo + frac * (hi - lo))

/-- Percentile over possibly-NaN trial results: NaN propagates. -/
def npPercentileOpt (q : ℚ) (zs : List (Option ℚ)) : Option ℚ :=
  match seqOpt zs with
  | none => none
  | some vs => npPercentile q vs

/-- One printed row of the sweep table: the parameter value b and the three
statistics over the 25 trial means. -/
structure SweepRow where
  bval : ℚ
  meanv : Option ℚ
  lowv : Option ℚ
  highv : Option ℚ
  deriving DecidableEq

/-- The 25-trial inner loop of the main block (mg1.py lines 62-64): run n
trials `simrun(0, b)` in order, threading the world, and collect the trial
means in order into the list z. -/
def trialsW (D : DrawModel) (fuel : ℕ) (g : GlobalClock) (b : ℚ) :
    ℕ → World → List (Option Time) × World
  | 0, w => ([], w)
  | n+1, w =>
      let zw := simrunW D fuel g 0 b w
      let rest := trialsW D fuel g b n zw.2
      (zw.1 :: rest.1, rest.2)

/-- The sweep outer loop (mg1.py lines 60-70): for each b, 25 trials, then
one row with the mean of the trial means and the 5th and 95th percentiles. -/
def sweepRowsW (D : DrawModel) (fuel : ℕ) (g : GlobalClock) :
    List ℚ → World → List SweepRow × World
  | [], w => ([], w)
  | b :: bs, w =>
      let zw := trialsW D fuel g b 25 w
      let rest := sweepRowsW D fuel g bs zw.2
      (⟨b, npMeanOpt zw.1, npPercentileOpt 5 zw.1, npPercentileOpt 95 zw.1⟩ :: rest.1,
       rest.2)

/-- The sweep values `x = np.linspace(0.1, 3.0, 10)` (mg1.py line 58). -/
def sweepBs : List ℚ := linspace (1 / 10) 3 10

/-- Round a rational to the nearest integer, ties to even (the rounding of
printf-style fixed-point formatting). -/
def roundHalfEven (x : ℚ) : ℤ :=
  let f := ⌊x⌋
  let r := x - (f : ℚ)
  if r < 1 / 2 then f
  else if 1 / 2 < r then f + 1
  else if f % 2 = 0 then f else f + 1

/-- Fixed-point rendering with `dp` digits after the point, as `%.{dp}f`. -/
def fixedFmt (dp : ℕ) (x : ℚ) : String :=
  let n := roundHalfEven (x * (10 : ℚ) ^ dp)
  let sign := if n < 0 then "-" else ""
  let m := n.natAbs
  let ip := toString (m / 10 ^ dp)
  let fs := toString (m % 10 ^ dp)
  if dp = 0 then sign ++ ip
  else sign ++ ip ++ "." ++ ("".pushn '0' (dp - fs.length) ++ fs)

/-- Fixed-point rendering of a possibly-NaN value. -/
def fixedOpt (dp : ℕ) : Option ℚ → String
  | none => "nan"
  | some x => fixedFmt dp x

/-- The header line printed before the sweep table (mg1.py line 59). -/
def sweepHeader : String := "b\tmean\tlow\thigh"

/-- One printed sweep row, `%.1f\t%.4f\t%.4f\t%.4f` (mg1.py lines 69-70). -/
def formatRow (r : SweepRow) : String :=
  fixedFmt 1 r.bval ++ "\t" ++ fixedOpt 4 r.meanv ++ "\t"
    ++ fixedOpt 4 r.lowv ++ "\t" ++ fixedOpt 4 r.highv

/-- The world in which the sweep starts: `random.seed(13579)` fixed the
family of simulator streams, and the demonstration run has already created
simulator number 0, so trials use simulators 1, 2, ... -/
def sweepWorld (R : ℕ → ℕ → ℕ) : World := ⟨1, R⟩

/-- During every sweep trial the module-global `sim` is still bound to the
demonstration simulator, whose clock stopped at 10 (`sim.run(10)`,
mg1.py line 53). -/
def sweepGlobalClock : GlobalClock := .other 10

/-- The rows of the sweep table printed by the main block. -/
def mainSweep (D : DrawModel) (fuel : ℕ) (R : ℕ → ℕ → ℕ) : List SweepRow :=
  (sweepRowsW D fuel sweepGlobalClock sweepBs (sweepWorld R)).1

/-- Everything the sweep part of the main block writes to standard output:
the header line, then one formatted row per sweep value. -/
def mainSweepLines (D : DrawModel) (fuel : ℕ) (R : ℕ → ℕ → ℕ) : List String :=
  sweepHeader :: (mainSweep D fuel R).map formatRow

/-- The service-time bounds of the demonstration run,
`q = mg1(sim, 1.2, 0, 0.8)` (mg1.py line 52). -/
def demoBounds : ℚ × ℚ := (0, 4 / 5)

/-- The stop time of the demonstration run, `sim.run(10)` (mg1.py line 53). -/
def demoEndTime : Time := 10

/-- The service-time bound pairs (a, b) of every queue the program ever
constructs: the demonstration run at mg1.py line 52 and one `simrun(0, b)`
queue per sweep value and trial (mg1.py line 64). -/
def allRunBounds : List (ℚ × ℚ) :=
  demoBounds :: sweepBs.map (fun b => ((0 : ℚ), b))

/-- The format string of the log call at the customer entry
(mg1.py lines 30-31). -/
def arrivalLogTemplate : String := "%g: customer arrives (num_in_system=%d->%d)"

/-- The format string of the log call just before the release
(mg1.py lines 34-35). -/
def departureLogTemplate : String := "%g: customer arrives (num_in_system=%d->%d)"

/-- One rendered informational message: the template and the three values
interpolated into it (timestamp, occupancy before, occupancy after). -/
structure LogLine where
  template : String
  tstamp : Time
  beforeCount : ℤ
  afterCount : ℤ
  deriving DecidableEq

/-- The message of mg1.py lines 30-31: entry log, transition n -> n+1. -/
def arrivalLogLine (t : Time) (n : ℤ) : LogLine :=
  ⟨arrivalLogTemplate, t, n, n + 1⟩

/-- The message of mg1.py lines 34-35: pre-release log, transition n -> n-1. -/
def departureLogLine (t : Time) (n : ℤ) : LogLine :=
  ⟨departureLogTemplate, t, n, n - 1⟩

/-- Name resolution of `sim` in the logging arguments of the customer body
(mg1.py lines 30 and 34): the argument tuple is evaluated before the
logging call, so an unbound module-global `sim` raises NameError there, and
a bound one supplies the global simulator clock. -/
def logClockLookup (globalsSim : Option Time) : Except String Time :=
  match globalsSim with
  | none => .error "NameError: name sim is not defined"
  | some t => .ok t

/-- The actions a state has attributed to process `p` so far, in order. -/
def custTrace (p : ℕ) (s : SimState) : List Act :=
  s.trace.filter (fun a => a.actor == p)

/-- The pending events of process `p`. -/
def custTok (p : ℕ) (s : SimState) : List Ev :=
  s.evs.filter (fun e => e.pid == p)

/-- The wait-queue entries of process `p`. -/
def waitTok (p : ℕ) (s : SimState) : List (ℕ × Time) :=
  s.res.waitq.filter (fun z => z.1 == p)

/-- Trace of a customer that has logged its entry and acquired (arrival
time `a` = the simulated time of both steps, occupancy going up by one). -/
def shapeAcq (p : ℕ) (sh a : Time) (nb : ℤ) : List Act :=
  [.logA p sh a nb (nb + 1), .acquireA p a]

/-- Trace of a customer now sleeping through its drawn service time `d`. -/
def shapeSleep (p : ℕ) (sh a : Time) (nb : ℤ) (d : Time) : List Act :=
  shapeAcq p sh a nb ++ [.sleepA p .service d]

/-- Complete trace of a finished customer: entry log, acquire at arrival
time `a`, one service sleep, pre-release log at release time `r` with the
occupancy going down by one, release, and - when a collector is wired -
exactly one recorded sample, the system time `r - a`. -/
def shapeFull (collect : Bool) (p : ℕ) (sh a : Time) (nb : ℤ) (d : Time)
    (sh2 r : Time) (nb2 : ℤ) : List Act :=
  shapeSleep p sh a nb d
    ++ ([.logA p sh2 r nb2 (nb2 - 1), .releaseA p]
        ++ if collect then [.recordA p (r - a)] else [])

/-- The lifecycle of customer `p` as visible in its per-process trace: it
is at one of exactly four stages - not yet started, logged-and-acquired,
in service, or finished with the complete action sequence. -/
def CustStage (collect : Bool) (p : ℕ) (tr : List Act) : Prop :=
  tr = []
  ∨ (∃ sh a nb, tr = shapeAcq p sh a nb)
  ∨ (∃ sh a nb d, tr = shapeSleep p sh a nb d)
  ∨ (∃ sh a nb d sh2 r nb2, tr = shapeFull collect p sh a nb d sh2 r nb2)

/-- Full per-customer invariant, tying each customer stage to its pending
token: exactly one of a pending `custStart` event, a wait-queue entry, a
pending `custAcquired` event, a pending `custFinish` event, or nothing
(either never spawned or already finished). -/
def CustOk (P : EngineParams) (s : SimState) (p : ℕ) : Prop :=
  (s.nextPid ≤ p ∧ custTok p s = [] ∧ waitTok p s = [] ∧ custTrace p s = [])
  ∨ (∃ t sq, custTok p s = [⟨t, sq, p, .custStart⟩] ∧ waitTok p s = []
      ∧ custTrace p s = [] ∧ p < s.nextPid)
  ∨ (∃ sh a nb, custTok p s = [] ∧ waitTok p s = [(p, a)]
      ∧ custTrace p s = shapeAcq p sh a nb ∧ p < s.nextPid)
  ∨ (∃ t sq sh a nb, custTok p s = [⟨t, sq, p, .custAcquired a⟩] ∧ waitTok p s = []
      ∧ custTrace p s = shapeAcq p sh a nb ∧ p < s.nextPid)
  ∨ (∃ t sq sh a nb d, custTok p s = [⟨t, sq, p, .custFinish a⟩] ∧ waitTok p s = []
      ∧ custTrace p s = shapeSleep p sh a nb d ∧ p < s.nextPid)
  ∨ (∃ sh a nb d sh2 r nb2, custTok p s = [] ∧ waitTok p s = []
      ∧ custTrace p s = shapeFull P.collect p sh a nb d sh2 r nb2 ∧ p < s.nextPid)

/-- Sum of the first n inter-arrival draws: the simulated time at which
loop iteration n of the arrival generator wakes up from its sleep. -/
def cumIat (P : EngineParams) : ℕ → Time
  | 0 => 0
  | n + 1 => cumIat P n + P.iat n

/-- The canonical trace of the arrival generator while its pending
continuation is `genArrSpawn k`: it slept for the first draw, and for each
completed iteration i < k spawned one fresh customer (customers are
numbered 1, 2, ... in spawn order) and immediately slept for the next
draw, never waiting on any customer. -/
def genCanon (P : EngineParams) (k : ℕ) : List Act :=
  .sleepA 0 .interArrival (P.iat 0)
    :: (List.range k).flatMap
        (fun i => [.spawnA 0 (i + 1), .sleepA 0 .interArrival (P.iat (i + 1))])

/-- Invariant of the arrival generator (process id 0): it always has
exactly one pending continuation - it never terminates - which is either
the initial sleep at time 0 or the loop continuation of some iteration k
scheduled at the sum of the first k+1 draws, its trace is the canonical
alternation of sleeps and single spawns, and the customers spawned so far
are exactly pids 1..k. -/
def GenOk (P : EngineParams) (s : SimState) : Prop :=
  (custTok 0 s = [⟨0, 0, 0, .genArrSleep 0⟩] ∧ waitTok 0 s = []
    ∧ custTrace 0 s = [] ∧ s.nextPid = 1)
  ∨ (∃ k sq, custTok 0 s = [⟨cumIat P (k + 1), sq, 0, .genArrSpawn k⟩]
      ∧ waitTok 0 s = [] ∧ custTrace 0 s = genCanon P k ∧ s.nextPid = k + 1)

/-- The master invariant: no uncaught exception, the generator is in its
canonical loop and every customer is at one of its lifecycle stages. -/
def EngineInv (P : EngineParams) (s : SimState) : Prop :=
  s.err = false ∧ GenOk P s ∧ ∀ p, 1 ≤ p → CustOk P s p

/-- Number of acquires in a trace. -/
def countAcq (tr : List Act) : ℕ := (tr.filter Act.isAcquire).length

/-- Number of releases in a trace. -/
def countRel (tr : List Act) : ℕ := (tr.filter Act.isRelease).length

/-- Whether a continuation belongs to a process currently holding the
server (granted or sleeping through its service time). -/
def isSvcProc : Proc → Bool
  | .custAcquired _ => true
  | .custFinish _ => true
  | _ => false

/-- The pending events that belong to a process currently holding the
server (granted or sleeping through its service time). -/
def svcEvs (s : SimState) : List ℕ :=
  (s.evs.filter (fun e => isSvcProc e.proc)).map Ev.pid

/-- The resource-accounting invariant: the occupancy count equals acquires
minus releases, it also equals the number of holders plus the number of
waiters (hence is never negative), at most one process holds the server at
any instant, and the holders are exactly the processes with a pending
granted-or-serving continuation. -/
def ResOk (s : SimState) : Prop :=
  s.res.num_in_system = (countAcq s.trace : ℤ) - (countRel s.trace : ℤ)
  ∧ s.res.num_in_system = (s.res.inService.length : ℤ) + (s.res.waitq.length : ℤ)
  ∧ s.res.inService.length ≤ 1
  ∧ svcEvs s = s.res.inService

/-- Serial numbers are fresh and pairwise distinct among pending events:
the scheduler tie-break is therefore a total order. -/
def SeqInv (s : SimState) : Prop :=
  (∀ e ∈ s.evs, e.seq < s.nextSeq) ∧ s.evs.Pairwise (fun e f => e.seq ≠ f.seq)

/-- The scheduling order on pending events: lexicographic in (time, serial). -/
def EvLe (e f : Ev) : Prop :=
  e.time < f.time ∨ (e.time = f.time ∧ e.seq ≤ f.seq)

/-- `e` is a pending event of least (time, serial) scheduling key. -/
def PickRel (s : SimState) (e : Ev) : Prop :=
  e ∈ s.evs ∧ ∀ f ∈ s.evs, EvLe e f

/-- Relational scheduler step: some earliest pending event within the stop
time is popped and executed.  Determinism of the engine is functionality of
this relation. -/
def StepRel (P : EngineParams) (s s' : SimState) : Prop :=
  s.err = false
  ∧ ∃ e, PickRel s e ∧ e.time ≤ P.stop
      ∧ s' = exec P { s with evs := s.evs.erase e, now := e.time } e

/-- n chained relational scheduler steps. -/
def RunChain (P : EngineParams) : ℕ → SimState → SimState → Prop
  | 0, s, s' => s' = s
  | n + 1, s, s' => ∃ m, StepRel P s m ∧ RunChain P n m s'

/-- One row of the sweep table as a pure function of the sweep value `b`
and of the index `c` of the first of its 25 fresh trial simulators. -/
def mkSweepRow (D : DrawModel) (fuel : ℕ) (g : GlobalClock) (R : ℕ → ℕ → ℕ)
    (b : ℚ) (c : ℕ) : SweepRow :=
  let zs := (List.range 25).map (fun j => pureSimrun D fuel g 0 b (R (c + j)))
  ⟨b, npMeanOpt zs, npPercentileOpt 5 zs, npPercentileOpt 95 zs⟩

/-- Concrete engine parameters used to instantiate hypotheses in witness
theorems: unit inter-arrivals, half-unit service times, stop time 3, the
global `sim` a foreign simulator frozen at clock 10, collector wired. -/
def Ptest : EngineParams :=
  { iat := fun _ => 1, sv := fun _ => 1 / 2, stop := 3,
    gclock := .other 10, collect := true }

/-- Concrete draw model for witness theorems: every exponential draw is
2000 (so the first arrival falls beyond any stop time used), every
truncated-normal draw is 1. -/
def D0 : DrawModel := ⟨fun _ _ _ => 2000, fun _ _ _ _ => 1⟩

/-- Concrete world for witness theorems: no simulator created yet, all
simulator random streams constantly 0. -/
def W0 : World := ⟨0, fun _ _ => 0⟩

/-! ### Helper lemmas -/

theorem evLe_refl (e : Ev) : EvLe e e := Or.inr ⟨rfl, le_rfl⟩

theorem evLe_trans {e f g : Ev} (h1 : EvLe e f) (h2 : EvLe f g) : EvLe e g := by
  rcases h1 with h1 | ⟨h1, h1s⟩ <;> rcases h2 with h2 | ⟨h2, h2s⟩
  · exact Or.inl (lt_trans h1 h2)
  · exact Or.inl (h2 ▸ h1)
  · exact Or.inl (h1 ▸ h2)
  · exact Or.inr ⟨h1.trans h2, h1s.trans h2s⟩

theorem evLe_total (e f : Ev) : EvLe e f ∨ EvLe f e := by
  rcases lt_trichotomy e.time f.time with h | h | h
  · exact Or.inl (Or.inl h)
  · rcases le_total e.seq f.seq with hs | hs
    · exact Or.inl (Or.inr ⟨h, hs⟩)
    · exact Or.inr (Or.inr ⟨h.symm, hs⟩)
  · exact Or.inr (Or.inl h)

theorem filter_erase_comm {α : Type} [DecidableEq α] (f : α → Bool) (e : α) :
    ∀ l : List α, (l.erase e).filter f
      = if f e then (l.filter f).erase e else l.filter f := by
  intro l
  induction l with
  | nil => simp
  | cons x xs ih =>
      by_cases hxe : x = e
      · subst hxe
        by_cases hf : f x <;> simp [List.erase_cons, hf]
      · have hbe : (x == e) = false := by simp [hxe]
        by_cases hf : f e
        · by_cases hfx : f x <;>
            simp [List.erase_cons, hbe, hxe, hf, hfx, ih, List.filter_cons,
              List.erase_cons]
        · by_cases hfx : f x <;>
            simp [List.erase_cons, hbe, hxe, hf, hfx, ih, List.filter_cons]

theorem pickMin_cons_eq (x : Ev) (xs : List Ev) :
    pickMin (x :: xs) = some (match pickMin xs with
      | none => x
      | some m => if x.time < m.time then x
          else if m.time < x.time then m
          else if x.seq ≤ m.seq then x else m) := by
  rcases hx : pickMin xs with _ | m
  · cases xs with
    | nil => simp [pickMin]
    | cons y ys =>
        exfalso
        rw [pickMin] at hx
        rcases h' : pickMin ys with _ | m' <;> rw [h'] at hx <;> simp at hx
  · cases xs with
    | nil => simp [pickMin] at hx
    | cons y ys => rw [pickMin, hx]

theorem pickMin_mem : ∀ {l : List Ev} {e : Ev}, pickMin l = some e → e ∈ l := by
  intro l
  induction l with
  | nil => intro e h; simp [pickMin] at h
  | cons x xs ih =>
      intro e h
      rw [pickMin_cons_eq] at h
      rcases hx : pickMin xs with _ | m <;> rw [hx] at h <;>
        simp only [Option.some.injEq] at h <;> subst h
      · simp
      · by_cases h1 : x.time < m.time
        · simp [h1]
        · by_cases h2 : m.time < x.time
          · simp [h1, h2, ih hx]
          · by_cases h3 : x.seq ≤ m.seq <;> simp [h1, h2, h3, ih hx]

theorem pickMin_eq_none_iff : ∀ {l : List Ev}, pickMin l = none ↔ l = [] := by
  intro l
  cases l with
  | nil => simp [pickMin]
  | cons x xs => rw [pickMin_cons_eq]; simp

theorem pickMin_min : ∀ {l : List Ev} {e : Ev}, pickMin l = some e →
    ∀ f ∈ l, EvLe e f := by
  intro l
  induction l with
  | nil => intro e h; simp [pickMin] at h
  | cons x xs ih =>
      intro e h f hf
      rw [pickMin_cons_eq] at h
      rcases hx : pickMin xs with _ | m <;> rw [hx] at h <;>
        simp only [Option.some.injEq] at h <;> subst h
      · rcases List.mem_cons.mp hf with rfl | hf2
        · exact evLe_refl f
        · rw [pickMin_eq_none_iff.mp hx] at hf2
          simp at hf2
      · have hmin : ∀ g ∈ xs, EvLe m g := ih hx
        have hx1 : EvLe (if x.time < m.time then x
            else if m.time < x.time then m
            else if x.seq ≤ m.seq then x else m) x := by
          by_cases h1 : x.time < m.time
          · simp [h1, evLe_refl]
          · by_cases h2 : m.time < x.time
            · simp only [h1, if_false, h2, if_true]
              exact Or.inl h2
            · by_cases h3 : x.seq ≤ m.seq
              · simp [h1, h2, h3, evLe_refl]
              · simp only [h1, if_false, h2, if_false, h3, if_false]
                exact Or.inr ⟨le_antisymm (not_lt.mp h1) (not_lt.mp h2),
                  le_of_not_le h3⟩
        have hx2 : EvLe (if x.time < m.time then x
            else if m.time < x.time then m
            else if x.seq ≤ m.seq then x else m) m := by
          by_cases h1 : x.time < m.time
          · simp only [h1, if_true]
            exact Or.inl h1
          · by_cases h2 : m.time < x.time
            · simp [h1, h2, evLe_refl]
            · by_cases h3 : x.seq ≤ m.seq
              · simp only [h1, if_false, h2, if_false, h3, if_true]
                exact Or.inr ⟨le_antisymm (not_lt.mp h2) (not_lt.mp h1), h3⟩
              · simp [h1, h2, h3, evLe_refl]
        rcases List.mem_cons.mp hf with rfl | hf2
        · exact hx1
        · exact evLe_trans hx2 (hmin f hf2)

theorem sweepBs_eq : sweepBs
    = [1/10, 19/45, 67/90, 16/15, 25/18, 77/45, 61/30, 106/45, 241/90, 3] := by
  have h : List.range 10 = [0, 1, 2, 3, 4, 5, 6, 7, 8, 9] := by decide
  rw [sweepBs, linspace, h]
  norm_num

/-- Claim C2, counterexample: the driver sanity run constructs the queue
with service bounds a = 0, b = 0.8 (mg1.py line 52), not b = 0, and no
queue the program ever constructs has equal truncated-normal bounds, so
the degenerate-bounds edge case is not exercised by any run. -/
theorem degenerate_bounds_claim_false :
    demoBounds = ((0 : ℚ), 4 / 5)
    ∧ decide (demoBounds.2 = (0 : ℚ)) = false
    ∧ allRunBounds.any (fun p => decide (p.1 = p.2)) = false := by
  refine ⟨rfl, ?_, ?_⟩
  · simp only [demoBounds, decide_eq_false_iff_not]
    norm_num
  · simp only [allRunBounds, sweepBs_eq, demoBounds, List.map_cons, List.map_nil,
      List.any_cons, List.any_nil, Bool.or_eq_false_iff, decide_eq_false_iff_not]
    norm_num

/-- Claim C2, amended: the driver sanity run constructs the queue with
lower bound a = 0 and upper bound b = 0.8; in every queue the program
constructs (sanity run and all sweep trials) the lower bound is strictly
below the upper bound, so the truncated-normal bounds never collapse to
equal values. -/
theorem no_run_has_degenerate_bounds :
    demoBounds = ((0 : ℚ), 4 / 5)
    ∧ allRunBounds.all (fun p => decide (p.1 < p.2)) = true := by
  refine ⟨rfl, ?_⟩
  simp only [allRunBounds, sweepBs_eq, demoBounds, List.map_cons, List.map_nil,
    List.all_cons, List.all_nil, Bool.and_eq_true, decide_eq_true_eq]
  norm_num

/-- Claim C10: the two informational messages of the customer process use
the identical format text, whose label reads "customer arrives" even for
the pre-release message; for a given timestamp and occupancy the two
messages agree on everything except the direction of the occupancy
transition (up by one at the entry, down by one before the release), and
in particular the pre-release message with the same occupancy is never
equal to the entry message. -/
theorem customer_log_message_labels :
    arrivalLogTemplate = departureLogTemplate
    ∧ departureLogTemplate = "%g: customer arrives (num_in_system=%d->%d)"
    ∧ (∀ t n, (arrivalLogLine t n).template = (departureLogLine t n).template
        ∧ (arrivalLogLine t n).beforeCount = n
        ∧ (arrivalLogLine t n).afterCount = n + 1
        ∧ (departureLogLine t n).beforeCount = n
        ∧ (departureLogLine t n).afterCount = n - 1)
    ∧ (∀ t t2 : Time, ∀ n m : ℤ,
        decide (arrivalLogLine t n = departureLogLine t2 m)
          = (decide (t = t2) && (decide (n = m) && decide (n + 1 = m - 1))))
    ∧ (∀ t n, decide (arrivalLogLine t n = departureLogLine t n) = false) := by
  refine ⟨rfl, rfl, fun t n => ⟨rfl, rfl, rfl, rfl, rfl⟩, ?_, ?_⟩
  · intro t t2 n m
    rw [← Bool.decide_and, ← Bool.decide_and]
    apply decide_eq_decide.mpr
    unfold arrivalLogLine departureLogLine arrivalLogTemplate departureLogTemplate
    rw [LogLine.mk.injEq]
    constructor
    · rintro ⟨-, h1, h2, h3⟩; exact ⟨h1, h2, h3⟩
    · rintro ⟨h1, h2, h3⟩; exact ⟨rfl, h1, h2, h3⟩
  · intro t n
    simp only [decide_eq_false_iff_not, arrivalLogLine, departureLogLine,
      LogLine.mk.injEq, not_and]
    intro _ _ h
    omega

theorem simrunW_factor (D : DrawModel) (fuel : ℕ) (g : GlobalClock) (a b : ℚ)
    (w : World) :
    simrunW D fuel g a b w
      = (pureSimrun D fuel g a b (w.simulatorRng w.simCount),
         ⟨w.simCount + 1, w.simulatorRng⟩) := rfl

theorem trialsW_eq (D : DrawModel) (fuel : ℕ) (g : GlobalClock) (b : ℚ) :
    ∀ (n : ℕ) (w : World), trialsW D fuel g b n w
      = ((List.range n).map
          (fun i => pureSimrun D fuel g 0 b (w.simulatorRng (w.simCount + i))),
         ⟨w.simCount + n, w.simulatorRng⟩) := by
  intro n
  induction n with
  | zero => intro w; simp [trialsW]
  | succ n ih =>
      intro w
      simp only [trialsW, simrunW_factor, ih]
      refine Prod.ext ?_ ?_
      · simp only [List.range_succ_eq_map, List.map_cons, List.map_map]
        refine congrArg₂ _ (by simp) ?_
        apply List.map_congr_left
        intro i _
        simp only [Function.comp_apply]
        have harg : w.simCount + 1 + i = w.simCount + (i + 1) := by omega
        rw [harg]
      · simp only []
        refine congrArg₂ _ (by omega) rfl

/-- Claim C4: each call `simrun(a, b)` creates a brand-new simulator (its
random source starts unused at index 0 and its clock at 0) and a brand-new
collector (the initial state has no samples, an idle resource and an empty
event list apart from the generator start), runs it with stop time 1000,
and returns the mean of the samples of that run alone.  The call factors
through a pure function of the bounds and of this trial's own fresh
simulator stream - the only thing passed from call to call is the counter
handing out fresh simulators - and a sequence of n trials is exactly the
map of that pure function over n distinct fresh streams. -/
theorem simrun_fresh_and_independent (D : DrawModel) (fuel : ℕ)
    (g : GlobalClock) (a b : ℚ) (w : World) :
    simrunW D fuel g a b w
      = (pureSimrun D fuel g a b (w.simulatorRng w.simCount),
         ⟨w.simCount + 1, w.simulatorRng⟩)
    ∧ (∀ rng : ℕ → ℕ, pureSimrun D fuel g a b rng
        = dsMean ((runFuel (simrunParams D g a b rng) fuel initSim).samples))
    ∧ (∀ rng : ℕ → ℕ, (simrunParams D g a b rng).stop = 1000
        ∧ (simrunParams D g a b rng).collect = true)
    ∧ (newSimulator w).1.rngIdx = 0
    ∧ (newSimulator w).1.now = 0
    ∧ (newSimulator w).1.rngStream = w.simulatorRng w.simCount
    ∧ (newSimulator w).2.simCount = w.simCount + 1
    ∧ initSim.samples = [] ∧ initSim.now = 0 ∧ initSim.res = ⟨[], [], 0⟩
    ∧ (∀ n : ℕ, trialsW D fuel g b n w
        = ((List.range n).map
            (fun i => pureSimrun D fuel g 0 b (w.simulatorRng (w.simCount + i))),
           ⟨w.simCount + n, w.simulatorRng⟩)) :=
  ⟨rfl, fun _ => rfl, fun _ => ⟨rfl, rfl⟩, rfl, rfl, rfl, rfl, rfl, rfl, rfl,
   fun n => trialsW_eq D fuel g b n w⟩

/-- Claim C5: the driver never special-cases an empty sample series - the
trial return value is `mean()` of whatever the collector holds, so any
trial whose run collected no system-time sample returns the undefined
empty-series mean (NaN, embedded as `none`). -/
theorem simrun_unguarded_empty_mean (D : DrawModel) (fuel : ℕ)
    (g : GlobalClock) (a b : ℚ) (w : World)
    (h : (runFuel (simrunParams D g a b (w.simulatorRng w.simCount))
            fuel initSim).samples = []) :
    (simrunW D fuel g a b w).1
      = dsMean ((runFuel (simrunParams D g a b (w.simulatorRng w.simCount))
          fuel initSim).samples)
    ∧ (simrunW D fuel g a b w).1 = none
    ∧ dsMean [] = none := by
  refine ⟨rfl, ?_, rfl⟩
  rw [simrunW_factor]
  show pureSimrun D fuel g a b (w.simulatorRng w.simCount) = none
  unfold pureSimrun
  rw [h]
  rfl

/-- Witness for claim C5: with every exponential draw equal to 2000, the
first arrival falls beyond the stop time 1000, the run collects nothing,
and the trial returns the undefined empty mean. -/
theorem simrun_unguarded_empty_mean_witness :
    (runFuel (simrunParams D0 (.other 10) 0 (4/5) (W0.simulatorRng W0.simCount))
        3 initSim).samples = []
    ∧ (simrunW D0 3 (.other 10) 0 (4/5) W0).1 = none := by
  have h : (runFuel (simrunParams D0 (.other 10) 0 (4/5)
      (W0.simulatorRng W0.simCount)) 3 initSim).samples = [] := by
    norm_num [runFuel, stepSim, exec, pickMin, initSim, simrunParams, mg1Init,
      randrange, D0, W0, simrunEndTime, simrunMeanIat, List.erase]
  exact ⟨h, (simrun_unguarded_empty_mean D0 3 (.other 10) 0 (4/5) W0 h).2.1⟩

theorem logsShow_append (g : Time) (old new : List Act)
    (h1 : ∀ a ∈ old, a.isLog = true → a.loggedTime = g)
    (h2 : ∀ a ∈ new, a.isLog = true → a.loggedTime = g) :
    ∀ a ∈ old ++ new, a.isLog = true → a.loggedTime = g := by
  intro a ha
  rcases List.mem_append.mp ha with hm | hm
  · exact h1 a hm
  · exact h2 a hm

theorem logsShow_exec (P : EngineParams) (g : Time) (hg : P.gclock = .other g)
    (s : SimState) (e : Ev)
    (h : ∀ a ∈ s.trace, a.isLog = true → a.loggedTime = g) :
    ∀ a ∈ (exec P s e).trace, a.isLog = true → a.loggedTime = g := by
  have hs : shownNow P s = some g := by simp [shownNow, hg]
  cases hp : e.proc with
  | genArrSleep k =>
      simp only [exec, hp]
      refine logsShow_append g _ _ h ?_
      intro a ha
      simp only [List.mem_singleton] at ha
      subst ha
      simp [Act.isLog]
  | genArrSpawn k =>
      simp only [exec, hp]
      refine logsShow_append g _ _ h ?_
      intro a ha
      simp only [List.mem_cons, List.mem_singleton, List.not_mem_nil, or_false] at ha
      rcases ha with rfl | rfl <;> simp [Act.isLog]
  | custStart =>
      simp only [exec, hp, hs]
      by_cases hin : s.res.inService = [] <;> simp only [hin, if_true, if_false]
      · refine logsShow_append g _ _ h ?_
        intro a ha
        simp only [List.mem_cons, List.mem_singleton, List.not_mem_nil, or_false] at ha
        rcases ha with rfl | rfl | rfl <;> simp [Act.isLog, Act.loggedTime]
      · refine logsShow_append g _ _ h ?_
        intro a ha
        simp only [List.mem_cons, List.mem_singleton, List.not_mem_nil, or_false] at ha
        rcases ha with rfl | rfl <;> simp [Act.isLog, Act.loggedTime]
  | custAcquired arr =>
      simp only [exec, hp]
      refine logsShow_append g _ _ h ?_
      intro a ha
      simp only [List.mem_singleton] at ha
      subst ha
      simp [Act.isLog]
  | custFinish arr =>
      simp only [exec, hp, hs]
      rcases hw : s.res.waitq with _ | ⟨⟨q, aq⟩, rest⟩ <;>
        simp only [hw] <;>
        refine logsShow_append g _ _ h ?_ <;>
        by_cases hc : P.collect <;>
        simp only [hc, if_true, if_false] <;>
        intro a ha <;>
        simp only [List.append_nil, List.mem_append, List.mem_cons, List.mem_singleton,
          List.not_mem_nil, or_false] at ha
      · rcases ha with (rfl | rfl) | rfl <;> simp [Act.isLog, Act.loggedTime]
      · rcases ha with (rfl | rfl) | ha
        · simp [Act.isLog, Act.loggedTime]
        · simp [Act.isLog]
        · simp at ha
      · rcases ha with (rfl | rfl) | rfl <;> simp [Act.isLog, Act.loggedTime]
      · rcases ha with (rfl | rfl) | ha
        · simp [Act.isLog, Act.loggedTime]
        · simp [Act.isLog]
        · simp at ha

theorem logsShow_stepSim (P : EngineParams) (g : Time) (hg : P.gclock = .other g)
    (s : SimState)
    (h : ∀ a ∈ s.trace, a.isLog = true → a.loggedTime = g) :
    ∀ a ∈ (stepSim P s).trace, a.isLog = true → a.loggedTime = g := by
  by_cases he : s.err
  · simpa [stepSim, he] using h
  · rcases hp : pickMin s.evs with _ | e
    · simpa [stepSim, he, hp] using h
    · by_cases ht : e.time ≤ P.stop
      · have : stepSim P s = exec P { s with evs := s.evs.erase e, now := e.time } e := by
          simp [stepSim, he, hp, ht]
        rw [this]
        exact logsShow_exec P g hg _ e h
      · simpa [stepSim, he, hp, ht] using h

theorem logsShow_runFuel (P : EngineParams) (g : Time) (hg : P.gclock = .other g) :
    ∀ (n : ℕ) (s : SimState),
      (∀ a ∈ s.trace, a.isLog = true → a.loggedTime = g) →
      ∀ a ∈ (runFuel P n s).trace, a.isLog = true → a.loggedTime = g := by
  intro n
  induction n with
  | zero => intro s h; exact h
  | succ n ih => intro s h; exact ih _ (logsShow_stepSim P g hg s h)

/-- Claim C9: the two logging statements of the customer body read the
module-global name `sim`, not `self.sim`.  Consequences, all proved on the
embedding of lines 30-31 and 34-35: evaluating the logging arguments with
no global `sim` bound raises NameError; with a bound global it yields the
global simulator clock; a customer entry executing in a run whose global
`sim` is unbound dies of the uncaught exception; and in any run whose
global `sim` is a different simulator with clock g (as in every sweep
trial, where g = 10), every logged timestamp equals g - the global clock -
whatever the running simulator clock is. -/
theorem customer_log_global_sim_name :
    logClockLookup none = Except.error "NameError: name sim is not defined"
    ∧ (∀ t, logClockLookup (some t) = Except.ok t)
    ∧ (∀ (iat sv : ℕ → Time) (stop : Time) (coll : Bool) (s : SimState)
        (t : Time) (sq p : ℕ),
        exec ⟨iat, sv, stop, GlobalClock.unbound, coll⟩ s ⟨t, sq, p, Proc.custStart⟩
          = { s with err := true })
    ∧ (∀ (iat sv : ℕ → Time) (stop g : Time) (coll : Bool) (n : ℕ),
        (((runFuel ⟨iat, sv, stop, GlobalClock.other g, coll⟩ n initSim).trace.filter
            Act.isLog).all (fun a => a.loggedTime == g)) = true) := by
  refine ⟨rfl, fun t => rfl, fun iat sv stop coll s t sq p => rfl, ?_⟩
  intro iat sv stop g coll n
  rw [List.all_eq_true]
  intro a ha
  rcases List.mem_filter.mp ha with ⟨ha1, ha2⟩
  have := logsShow_runFuel ⟨iat, sv, stop, GlobalClock.other g, coll⟩ g rfl n initSim
    (by intro a h; simp [initSim] at h) a ha1 ha2
  simpa using this

theorem sweepRowsW_eq (D : DrawModel) (fuel : ℕ) (g : GlobalClock) :
    ∀ (bs : List ℚ) (w : World),
      sweepRowsW D fuel g bs w
        = ((List.range bs.length).map
            (fun i => mkSweepRow D fuel g w.simulatorRng (bs.getD i 0)
              (w.simCount + 25 * i)),
           ⟨w.simCount + 25 * bs.length, w.simulatorRng⟩) := by
  intro bs
  induction bs with
  | nil => intro w; simp [sweepRowsW]
  | cons b bs ih =>
      intro w
      simp only [sweepRowsW, trialsW_eq, ih]
      refine congrArg₂ Prod.mk ?_ ?_
      · conv_rhs => rw [List.length_cons, List.range_succ_eq_map, List.map_cons,
          List.map_map]
        refine congrArg₂ List.cons ?_ ?_
        · simp only [mkSweepRow, List.getD_cons_zero, Nat.mul_zero, Nat.add_zero]
        · apply List.map_congr_left
          intro i _
          simp only [Function.comp_apply, List.getD_cons_succ]
          have harg : w.simCount + 25 + 25 * i = w.simCount + 25 * (i + 1) := by ring
          rw [harg]
      · rw [List.length_cons]
        refine congrArg₂ _ ?_ rfl
        ring

/-- Claim C3: after the demonstration run, the program sweeps exactly the
10 evenly spaced values b = 0.1 + i*(29/90) for i = 0..9 - from 0.1 to 3.0
inclusive - and for each b runs exactly 25 trials, each a fresh simulation
(`simrun(0, b)`: lower bound 0, stop time 1000, mean inter-arrival 1.2) on
its own fresh simulator; it prints, under the header line b/mean/low/high,
one tab-separated row per b holding b at 1 decimal place and the mean of
the 25 trial means, the 5th percentile and the 95th percentile at 4
decimal places each. -/
theorem main_sweep_structure (D : DrawModel) (fuel : ℕ) (R : ℕ → ℕ → ℕ) :
    sweepBs = (List.range 10).map (fun i : ℕ => 1/10 + (i : ℚ) * (29/90))
    ∧ sweepBs.length = 10
    ∧ sweepBs.head? = some (1/10)
    ∧ sweepBs.getLast? = some 3
    ∧ mainSweep D fuel R = (List.range 10).map
        (fun i : ℕ => mkSweepRow D fuel sweepGlobalClock R (1/10 + (i : ℚ) * (29/90))
          (1 + 25 * i))
    ∧ (∀ b : ℚ, ∀ c : ℕ, mkSweepRow D fuel sweepGlobalClock R b c
        = ⟨b,
           npMeanOpt ((List.range 25).map
             (fun j => pureSimrun D fuel sweepGlobalClock 0 b (R (c + j)))),
           npPercentileOpt 5 ((List.range 25).map
             (fun j => pureSimrun D fuel sweepGlobalClock 0 b (R (c + j)))),
           npPercentileOpt 95 ((List.range 25).map
             (fun j => pureSimrun D fuel sweepGlobalClock 0 b (R (c + j))))⟩)
    ∧ (List.range 25).length = 25
    ∧ mainSweepLines D fuel R = sweepHeader :: (mainSweep D fuel R).map formatRow
    ∧ sweepHeader = "b\tmean\tlow\thigh"
    ∧ (∀ r : SweepRow, formatRow r
        = fixedFmt 1 r.bval ++ "\t" ++ fixedOpt 4 r.meanv ++ "\t"
          ++ fixedOpt 4 r.lowv ++ "\t" ++ fixedOpt 4 r.highv)
    ∧ simrunEndTime = 1000
    ∧ simrunMeanIat = 6/5
    ∧ sweepGlobalClock = GlobalClock.other 10 := by
  have hr10 : List.range 10 = [0, 1, 2, 3, 4, 5, 6, 7, 8, 9] := by decide
  refine ⟨?_, by rw [sweepBs_eq]; rfl, by rw [sweepBs_eq]; rfl,
    by rw [sweepBs_eq]; rfl, ?_, fun b c => rfl, rfl, rfl, rfl, fun r => rfl,
    rfl, rfl, rfl⟩
  · rw [sweepBs_eq, hr10]
    simp only [List.map_cons, List.map_nil]
    norm_num
  · show (sweepRowsW D fuel sweepGlobalClock sweepBs (sweepWorld R)).1 = _
    rw [sweepRowsW_eq]
    dsimp only
    have hlen : sweepBs.length = 10 := by rw [sweepBs_eq]; rfl
    rw [hlen]
    apply List.map_congr_left
    intro i hi
    have hi10 : i < 10 := List.mem_range.mp hi
    have hget : sweepBs.getD i 0 = 1/10 + (i : ℚ) * (29/90) := by
      interval_cases i <;> simp [sweepBs_eq, List.getD] <;> norm_num
    rw [hget]
    rfl

theorem seqInv_extend (evs0 : List Ev) (ns ns' : ℕ) (new : List Ev)
    (h1 : ∀ e ∈ evs0, e.seq < ns)
    (h2 : evs0.Pairwise (fun e f => e.seq ≠ f.seq))
    (h3 : ∀ e ∈ new, ns ≤ e.seq ∧ e.seq < ns')
    (h4 : new.Pairwise (fun e f => e.seq ≠ f.seq))
    (h5 : ns ≤ ns') :
    (∀ e ∈ evs0 ++ new, e.seq < ns')
    ∧ (evs0 ++ new).Pairwise (fun e f => e.seq ≠ f.seq) := by
  constructor
  · intro e he
    rcases List.mem_append.mp he with he | he
    · exact lt_of_lt_of_le (h1 e he) h5
    · exact (h3 e he).2
  · rw [List.pairwise_append]
    refine ⟨h2, h4, ?_⟩
    intro e he f hf
    exact Nat.ne_of_lt (lt_of_lt_of_le (h1 e he) (h3 f hf).1)

theorem seqInv_erase (s : SimState) (e : Ev) (h : SeqInv s) :
    SeqInv { s with evs := s.evs.erase e, now := e.time } := by
  rcases h with ⟨h1, h2⟩
  constructor
  · intro f hf
    exact h1 f (List.mem_of_mem_erase hf)
  · exact h2.sublist (List.erase_sublist e s.evs)

theorem seqInv_exec (P : EngineParams) (s : SimState) (e : Ev) (h : SeqInv s) :
    SeqInv (exec P s e) := by
  rcases h with ⟨h1, h2⟩
  cases hp : e.proc with
  | genArrSleep k =>
      simp only [exec, hp]
      exact seqInv_extend s.evs s.nextSeq (s.nextSeq + 1) _ h1 h2
        (by intro f hf; simp at hf; subst hf; dsimp only; omega) (by simp)
        (by omega)
  | genArrSpawn k =>
      simp only [exec, hp]
      refine seqInv_extend s.evs s.nextSeq (s.nextSeq + 2) _ h1 h2 ?_ ?_ (by omega)
      · intro f hf
        simp only [List.mem_cons, List.mem_singleton, List.not_mem_nil,
          or_false] at hf
        rcases hf with rfl | rfl <;> dsimp only <;> omega
      · simp
  | custStart =>
      simp only [exec, hp]
      rcases hs : shownNow P s with _ | t
      · exact ⟨h1, h2⟩
      · by_cases hin : s.res.inService = [] <;> simp only [hin, if_true, if_false]
        · exact seqInv_extend s.evs s.nextSeq (s.nextSeq + 1) _ h1 h2
            (by intro f hf; simp at hf; subst hf; dsimp only; omega) (by simp)
            (by omega)
        · exact ⟨h1, h2⟩
  | custAcquired arr =>
      simp only [exec, hp]
      exact seqInv_extend s.evs s.nextSeq (s.nextSeq + 1) _ h1 h2
        (by intro f hf; simp at hf; subst hf; dsimp only; omega) (by simp)
        (by omega)
  | custFinish arr =>
      simp only [exec, hp]
      rcases hs : shownNow P s with _ | t
      · exact ⟨h1, h2⟩
      · rcases hw : s.res.waitq with _ | ⟨⟨q, aq⟩, rest⟩ <;> simp only [hw]
        · exact ⟨h1, h2⟩
        · exact seqInv_extend s.evs s.nextSeq (s.nextSeq + 1) _ h1 h2
            (by intro f hf; simp at hf; subst hf; dsimp only; omega) (by simp)
            (by omega)

theorem seqInv_stepSim (P : EngineParams) (s : SimState) (h : SeqInv s) :
    SeqInv (stepSim P s) := by
  by_cases he : s.err
  · simpa [stepSim, he] using h
  · rcases hp : pickMin s.evs with _ | e
    · simpa [stepSim, he, hp] using h
    · by_cases ht : e.time ≤ P.stop
      · have hst : stepSim P s
            = exec P { s with evs := s.evs.erase e, now := e.time } e := by
          simp [stepSim, he, hp, ht]
        rw [hst]
        exact seqInv_exec P _ e (seqInv_erase s e h)
      · simpa [stepSim, he, hp, ht] using h

theorem seqInv_init : SeqInv initSim := by
  constructor
  · intro e he
    simp only [initSim, List.mem_singleton] at he
    subst he
    decide
  · simp [initSim]

theorem seqInv_runFuel (P : EngineParams) :
    ∀ (n : ℕ) (s : SimState), SeqInv s → SeqInv (runFuel P n s) := by
  intro n
  induction n with
  | zero => intro s h; exact h
  | succ n ih => intro s h; exact ih _ (seqInv_stepSim P s h)

theorem pickRel_unique (s : SimState) (h : SeqInv s) (e f : Ev)
    (he : PickRel s e) (hf : PickRel s f) : e = f := by
  rcases he with ⟨he1, he2⟩
  rcases hf with ⟨hf1, hf2⟩
  have h1 : EvLe e f := he2 f hf1
  have h2 : EvLe f e := hf2 e he1
  have htime : e.time = f.time := by
    rcases h1 with h1 | ⟨h1, _⟩ <;> rcases h2 with h2 | ⟨h2, _⟩
    · exact absurd (lt_trans h1 h2) (lt_irrefl _)
    · exact h2.symm
    · exact h1
    · exact h1
  have hseq : e.seq = f.seq := by
    rcases h1 with h1 | ⟨_, h1⟩
    · exact absurd (htime ▸ h1) (lt_irrefl _)
    · rcases h2 with h2 | ⟨_, h2⟩
      · exact absurd (htime ▸ h2) (lt_irrefl _)
      · exact le_antisymm h1 h2
  by_contra hne
  have hsym : Symmetric (fun e f : Ev => e.seq ≠ f.seq) :=
    fun a b hab heq => hab heq.symm
  exact absurd hseq (List.Pairwise.forall hsym h.2 he1 hf1 hne)

theorem stepRel_functional (P : EngineParams) (s a b : SimState) (h : SeqInv s)
    (ha : StepRel P s a) (hb : StepRel P s b) : a = b := by
  rcases ha with ⟨-, e1, hp1, ht1, rfl⟩
  rcases hb with ⟨-, e2, hp2, ht2, hbeq⟩
  have he : e1 = e2 := pickRel_unique s h e1 e2 hp1 hp2
  subst he
  exact hbeq.symm ▸ rfl

theorem stepRel_seqInv (P : EngineParams) (s s' : SimState) (h : SeqInv s)
    (hs : StepRel P s s') : SeqInv s' := by
  rcases hs with ⟨-, e, hp, ht, rfl⟩
  exact seqInv_exec P _ e (seqInv_erase s e h)

theorem runChain_functional (P : EngineParams) :
    ∀ (n : ℕ) (s a b : SimState), SeqInv s →
      RunChain P n s a → RunChain P n s b → a = b := by
  intro n
  induction n with
  | zero => intro s a b _ ha hb; rw [ha, hb]
  | succ n ih =>
      intro s a b h ha hb
      rcases ha with ⟨m1, h1, r1⟩
      rcases hb with ⟨m2, h2, r2⟩
      have hm : m1 = m2 := stepRel_functional P s m1 m2 h h1 h2
      subst hm
      exact ih m1 a b (stepRel_seqInv P s m1 h h1) r1 r2

theorem stepRel_of_pickMin (P : EngineParams) (s : SimState) (e : Ev)
    (he : s.err = false) (hp : pickMin s.evs = some e) (ht : e.time ≤ P.stop) :
    StepRel P s (stepSim P s) := by
  refine ⟨he, e, ⟨pickMin_mem hp, pickMin_min hp⟩, ht, ?_⟩
  simp [stepSim, he, hp, ht]

/-- Claim C7: the engine is deterministic and the two variate streams are
independently seeded.  The scheduler step relation (pop some earliest
pending event) is a function: with distinct serial numbers - an invariant
of every run - two scheduler steps from the same state, and hence two runs
of the same length from the same initial state, are bit-for-bit identical,
and the executable scheduler realizes this relation.  Moreover
`mg1.__init__` seeds the exponential inter-arrival stream with one 32-bit
draw of the owning simulator random source and the truncated-normal
service stream with the next 32-bit draw of the same source (both values
below 2^32, the source advanced exactly twice). -/
theorem deterministic_scheduling_and_stream_seeding :
    (∀ (P : EngineParams) (s a b : SimState), SeqInv s →
      StepRel P s a → StepRel P s b → a = b)
    ∧ (∀ (P : EngineParams) (n : ℕ) (s a b : SimState), SeqInv s →
      RunChain P n s a → RunChain P n s b → a = b)
    ∧ (∀ (P : EngineParams) (s : SimState) (e : Ev), s.err = false →
      pickMin s.evs = some e → e.time ≤ P.stop → StepRel P s (stepSim P s))
    ∧ (∀ (P : EngineParams) (n : ℕ), SeqInv (runFuel P n initSim))
    ∧ (∀ (D : DrawModel) (sim : Simulator) (m a b : ℚ),
        (mg1Init D sim m a b).1.iatSeed = sim.rngStream sim.rngIdx % 2 ^ 32
        ∧ (mg1Init D sim m a b).1.svSeed
            = sim.rngStream (sim.rngIdx + 1) % 2 ^ 32
        ∧ (mg1Init D sim m a b).1.iatSeed < 2 ^ 32
        ∧ (mg1Init D sim m a b).1.svSeed < 2 ^ 32
        ∧ (mg1Init D sim m a b).2.rngIdx = sim.rngIdx + 2
        ∧ (mg1Init D sim m a b).1.iat
            = D.exponDraw m ((mg1Init D sim m a b).1.iatSeed)
        ∧ (mg1Init D sim m a b).1.sv
            = D.truncnormDraw a b ((mg1Init D sim m a b).1.svSeed)) := by
  refine ⟨stepRel_functional, runChain_functional, stepRel_of_pickMin,
    fun P n => seqInv_runFuel P n initSim seqInv_init, ?_⟩
  intro D sim m a b
  refine ⟨rfl, rfl, ?_, ?_, rfl, rfl, rfl⟩
  · exact Nat.mod_lt _ (by norm_num)
  · exact Nat.mod_lt _ (by norm_num)

/-- Witness for claim C7: the initial state has distinct serials, and the
two relational scheduler steps available there coincide, both being the
executable scheduler step. -/
theorem deterministic_scheduling_witness :
    SeqInv initSim ∧ stepSim Ptest initSim = stepSim Ptest initSim := by
  have T := deterministic_scheduling_and_stream_seeding
  have hseq : SeqInv initSim := seqInv_init
  have hstep : StepRel Ptest initSim (stepSim Ptest initSim) :=
    T.2.2.1 Ptest initSim ⟨0, 0, 0, .genArrSleep 0⟩ rfl rfl (by norm_num [Ptest])
  exact ⟨hseq,
    T.2.1 Ptest 1 initSim _ _ hseq ⟨_, hstep, rfl⟩ ⟨_, hstep, rfl⟩⟩

theorem countAcq_append (t1 t2 : List Act) :
    countAcq (t1 ++ t2) = countAcq t1 + countAcq t2 := by
  simp [countAcq, List.filter_append]

theorem countRel_append (t1 t2 : List Act) :
    countRel (t1 ++ t2) = countRel t1 + countRel t2 := by
  simp [countRel, List.filter_append]

theorem filter_singleton_of_map_eq {l : List Ev} {f : Ev → Bool} {p : ℕ} {e : Ev}
    (h : (l.filter f).map Ev.pid = [p]) (hel : e ∈ l) (hf : f e = true) :
    l.filter f = [e] := by
  have hmem : e ∈ l.filter f := List.mem_filter.mpr ⟨hel, hf⟩
  rcases hfl : l.filter f with _ | ⟨x, xs⟩
  · rw [hfl] at hmem; simp at hmem
  · rw [hfl] at h hmem
    rcases xs with _ | ⟨y, ys⟩
    · simp at hmem; rw [hmem]
    · simp at h

theorem filter_erase_neg {α : Type} [DecidableEq α] {f : α → Bool} {e : α}
    (l : List α) (h : f e = false) : (l.erase e).filter f = l.filter f := by
  rw [filter_erase_comm, h]
  simp

theorem filter_erase_pos {α : Type} [DecidableEq α] {f : α → Bool} {e : α}
    (l : List α) (h : f e = true) :
    (l.erase e).filter f = (l.filter f).erase e := by
  rw [filter_erase_comm, h]
  simp

theorem svcFilter_spawnPair (t1 : Time) (sq1 p1 : ℕ) (t2 : Time) (sq2 p2 k : ℕ) :
    List.filter (fun e : Ev => isSvcProc e.proc)
      [(⟨t1, sq1, p1, .custStart⟩ : Ev), ⟨t2, sq2, p2, .genArrSpawn k⟩] = [] := rfl

theorem svcFilter_genSpawnEv (t : Time) (sq p k : ℕ) :
    List.filter (fun e : Ev => isSvcProc e.proc)
      [(⟨t, sq, p, .genArrSpawn k⟩ : Ev)] = [] := rfl

theorem svcFilter_custFinishEv (t : Time) (sq p : ℕ) (a : Time) :
    List.filter (fun e : Ev => isSvcProc e.proc) [(⟨t, sq, p, .custFinish a⟩ : Ev)]
      = [⟨t, sq, p, .custFinish a⟩] := rfl

theorem svcFilter_custAcquiredEv (t : Time) (sq p : ℕ) (a : Time) :
    List.filter (fun e : Ev => isSvcProc e.proc) [(⟨t, sq, p, .custAcquired a⟩ : Ev)]
      = [⟨t, sq, p, .custAcquired a⟩] := rfl

theorem resOk_exec (P : EngineParams) (hg : P.gclock ≠ GlobalClock.unbound)
    (s : SimState) (e : Ev) (he : e ∈ s.evs) (h : ResOk s) :
    ResOk (exec P { s with evs := s.evs.erase e, now := e.time } e) := by
  rcases h with ⟨hcnt, hsz, hlen, hsync⟩
  have hshw : ∀ s₀ : SimState, ∃ t, shownNow P s₀ = some t := by
    intro s₀
    cases hgc : P.gclock with
    | selfSim => exact ⟨s₀.now, by simp [shownNow, hgc]⟩
    | other g => exact ⟨g, by simp [shownNow, hgc]⟩
    | unbound => exact absurd hgc hg
  cases hp : e.proc with
  | genArrSleep k =>
      have hcond : isSvcProc e.proc = false := by simp [isSvcProc, hp]
      refine ⟨?_, ?_, ?_, ?_⟩
      · simp only [exec, hp]
        simp [countAcq, countRel, Act.isAcquire, Act.isRelease,
          List.filter_append] at hcnt ⊢
        omega
      · simp only [exec, hp]; exact hsz
      · simp only [exec, hp]; exact hlen
      · simp only [exec, hp, svcEvs, List.filter_append, List.map_append,
          @filter_erase_neg Ev _ (fun ev => isSvcProc ev.proc) e s.evs hcond, svcFilter_genSpawnEv, List.map_nil,
          List.append_nil]
        exact hsync
  | genArrSpawn k =>
      have hcond : isSvcProc e.proc = false := by simp [isSvcProc, hp]
      refine ⟨?_, ?_, ?_, ?_⟩
      · simp only [exec, hp]
        simp [countAcq, countRel, Act.isAcquire, Act.isRelease,
          List.filter_append] at hcnt ⊢
        omega
      · simp only [exec, hp]; exact hsz
      · simp only [exec, hp]; exact hlen
      · simp only [exec, hp, svcEvs, List.filter_append, List.map_append,
          @filter_erase_neg Ev _ (fun ev => isSvcProc ev.proc) e s.evs hcond, svcFilter_spawnPair, List.map_nil,
          List.append_nil]
        exact hsync
  | custStart =>
      obtain ⟨t, hsh⟩ := hshw { s with evs := s.evs.erase e, now := e.time }
      have hcond : isSvcProc e.proc = false := by simp [isSvcProc, hp]
      by_cases hin : s.res.inService = []
      · have hsvc0 : s.evs.filter (fun ev => isSvcProc ev.proc) = [] :=
          List.map_eq_nil_iff.mp
            (by rw [show (s.evs.filter (fun ev => isSvcProc ev.proc)).map Ev.pid
                  = svcEvs s from rfl, hsync, hin])
        refine ⟨?_, ?_, ?_, ?_⟩
        · simp only [exec, hp, hsh, hin, if_true]
          simp [countAcq, countRel, Act.isAcquire, Act.isRelease,
            List.filter_append] at hcnt ⊢
          omega
        · simp only [exec, hp, hsh, hin, if_true]
          rw [hin] at hsz
          simp at hsz
          simp
          omega
        · simp only [exec, hp, hsh, hin, if_true]
          simp
        · simp only [exec, hp, hsh, hin, if_true, svcEvs, List.filter_append,
            List.map_append, @filter_erase_neg Ev _ (fun ev => isSvcProc ev.proc) e s.evs hcond, hsvc0,
            svcFilter_custFinishEv, List.map_nil, List.map_cons]
          simp
      · refine ⟨?_, ?_, ?_, ?_⟩
        · simp only [exec, hp, hsh, hin, if_false]
          simp [countAcq, countRel, Act.isAcquire, Act.isRelease,
            List.filter_append] at hcnt ⊢
          omega
        · simp only [exec, hp, hsh, hin, if_false]
          simp
          omega
        · simp only [exec, hp, hsh, hin, if_false]
          exact hlen
        · simp only [exec, hp, hsh, hin, if_false, svcEvs,
            @filter_erase_neg Ev _ (fun ev => isSvcProc ev.proc) e s.evs hcond]
          exact hsync
  | custAcquired arr =>
      have hcond : isSvcProc e.proc = true := by simp [isSvcProc, hp]
      have hone : s.res.inService = [e.pid] := by
        have hmem : e.pid ∈ svcEvs s := by
          simp only [svcEvs]
          exact List.mem_map.mpr ⟨e, List.mem_filter.mpr ⟨he, hcond⟩, rfl⟩
        rw [hsync] at hmem
        rcases hsv : s.res.inService with _ | ⟨x, xs⟩
        · rw [hsv] at hmem; simp at hmem
        · rcases xs with _ | ⟨y, ys⟩
          · rw [hsv] at hmem; simp at hmem; rw [hmem]
          · rw [hsv] at hlen; simp at hlen
      have hfl : s.evs.filter (fun ev => isSvcProc ev.proc) = [e] :=
        filter_singleton_of_map_eq (by rw [← svcEvs, hsync, hone]) he hcond
      refine ⟨?_, ?_, ?_, ?_⟩
      · simp only [exec, hp]
        simp [countAcq, countRel, Act.isAcquire, Act.isRelease,
          List.filter_append] at hcnt ⊢
        omega
      · simp only [exec, hp]; exact hsz
      · simp only [exec, hp]; exact hlen
      · simp only [exec, hp, svcEvs, List.filter_append, List.map_append,
          @filter_erase_pos Ev _ (fun ev => isSvcProc ev.proc) e s.evs hcond, hfl, svcFilter_custFinishEv,
          List.map_cons, List.map_nil]
        simp [hone]
  | custFinish arr =>
      obtain ⟨t, hsh⟩ := hshw { s with evs := s.evs.erase e, now := e.time }
      have hcond : isSvcProc e.proc = true := by simp [isSvcProc, hp]
      have hone : s.res.inService = [e.pid] := by
        have hmem : e.pid ∈ svcEvs s := by
          simp only [svcEvs]
          exact List.mem_map.mpr ⟨e, List.mem_filter.mpr ⟨he, hcond⟩, rfl⟩
        rw [hsync] at hmem
        rcases hsv : s.res.inService with _ | ⟨x, xs⟩
        · rw [hsv] at hmem; simp at hmem
        · rcases xs with _ | ⟨y, ys⟩
          · rw [hsv] at hmem; simp at hmem; rw [hmem]
          · rw [hsv] at hlen; simp at hlen
      have hfl : s.evs.filter (fun ev => isSvcProc ev.proc) = [e] :=
        filter_singleton_of_map_eq (by rw [← svcEvs, hsync, hone]) he hcond
      rcases hw : s.res.waitq with _ | ⟨⟨q, aq⟩, rest⟩
      · refine ⟨?_, ?_, ?_, ?_⟩
        · simp only [exec, hp, hsh, hw]
          by_cases hc : P.collect <;>
            simp [hc, countAcq, countRel, Act.isAcquire, Act.isRelease,
              List.filter_append] at hcnt ⊢ <;>
            omega
        · simp only [exec, hp, hsh, hw]
          rw [hone, hw] at hsz
          simp at hsz
          simp
          omega
        · simp only [exec, hp, hsh, hw]
          simp
        · simp only [exec, hp, hsh, hw, svcEvs,
            @filter_erase_pos Ev _ (fun ev => isSvcProc ev.proc) e s.evs hcond, hfl, List.erase_cons_head,
            List.map_nil]
      · refine ⟨?_, ?_, ?_, ?_⟩
        · simp only [exec, hp, hsh, hw]
          by_cases hc : P.collect <;>
            simp [hc, countAcq, countRel, Act.isAcquire, Act.isRelease,
              List.filter_append] at hcnt ⊢ <;>
            omega
        · simp only [exec, hp, hsh, hw]
          rw [hone, hw] at hsz
          simp at hsz
          simp
          omega
        · simp only [exec, hp, hsh, hw]
          simp
        · simp only [exec, hp, hsh, hw, svcEvs, List.filter_append,
            List.map_append, @filter_erase_pos Ev _ (fun ev => isSvcProc ev.proc) e s.evs hcond, hfl,
            List.erase_cons_head, svcFilter_custAcquiredEv, List.map_cons,
            List.map_nil]
          simp

theorem resOk_stepSim (P : EngineParams) (hg : P.gclock ≠ GlobalClock.unbound)
    (s : SimState) (h : ResOk s) : ResOk (stepSim P s) := by
  by_cases he : s.err
  · simpa [stepSim, he] using h
  · rcases hp : pickMin s.evs with _ | e
    · simpa [stepSim, he, hp] using h
    · by_cases ht : e.time ≤ P.stop
      · have hst : stepSim P s
            = exec P { s with evs := s.evs.erase e, now := e.time } e := by
          simp [stepSim, he, hp, ht]
        rw [hst]
        exact resOk_exec P hg s e (pickMin_mem hp) h
      · simpa [stepSim, he, hp, ht] using h

theorem resOk_init : ResOk initSim := by
  refine ⟨rfl, rfl, by simp [initSim], rfl⟩

theorem resOk_runFuel (P : EngineParams) (hg : P.gclock ≠ GlobalClock.unbound) :
    ∀ (n : ℕ) (s : SimState), ResOk s → ResOk (runFuel P n s) := by
  intro n
  induction n with
  | zero => intro s h; exact h
  | succ n ih => intro s h; exact ih _ (resOk_stepSim P hg s h)

/-- Claim C6: in every reachable state of a run (any parameters whose
global `sim` is bound, any number of scheduler steps), the occupancy count
`num_in_system` equals the number of acquires minus the number of releases
performed so far - each acquire increments it exactly once, counting
queued and served entities alike, and each release decrements it exactly
once - it also equals the number of holders plus the number of waiters and
is therefore never negative, and at most one process holds the server at
any simulated instant. -/
theorem resource_occupancy_invariant (P : EngineParams)
    (hg : P.gclock ≠ GlobalClock.unbound) (n : ℕ) :
    (runFuel P n initSim).res.num_in_system
        = (countAcq (runFuel P n initSim).trace : ℤ)
          - (countRel (runFuel P n initSim).trace : ℤ)
    ∧ (runFuel P n initSim).res.num_in_system
        = ((runFuel P n initSim).res.inService.length : ℤ)
          + ((runFuel P n initSim).res.waitq.length : ℤ)
    ∧ 0 ≤ (runFuel P n initSim).res.num_in_system
    ∧ (runFuel P n initSim).res.inService.length ≤ 1 := by
  have h := resOk_runFuel P hg n initSim resOk_init
  rcases h with ⟨h1, h2, h3, -⟩
  exact ⟨h1, h2, by rw [h2]; positivity, h3⟩

/-- Witness for claim C6: the invariant holds after 6 scheduler steps of
the concrete run with unit inter-arrivals and half-unit services. -/
theorem resource_occupancy_invariant_witness :
    Ptest.gclock ≠ GlobalClock.unbound
    ∧ 0 ≤ (runFuel Ptest 6 initSim).res.num_in_system := by
  have hg : Ptest.gclock ≠ GlobalClock.unbound := by
    simp [Ptest]
  exact ⟨hg, (resource_occupancy_invariant Ptest hg 6).2.2.1⟩

theorem custOk_congr (P : EngineParams) {s s' : SimState} (q : ℕ)
    (h1 : custTok q s' = custTok q s) (h2 : waitTok q s' = waitTok q s)
    (h3 : custTrace q s' = custTrace q s)
    (h4 : s.nextPid ≤ q → s'.nextPid ≤ q)
    (h5 : q < s.nextPid → q < s'.nextPid)
    (h : CustOk P s q) : CustOk P s' q := by
  unfold CustOk at h ⊢
  rw [h1, h2, h3]
  rcases h with ⟨ha, hb, hc, hd⟩ | ⟨t, sq, ha, hb, hc, hd⟩
    | ⟨sh, a, nb, ha, hb, hc, hd⟩ | ⟨t, sq, sh, a, nb, ha, hb, hc, hd⟩
    | ⟨t, sq, sh, a, nb, d, ha, hb, hc, hd⟩
    | ⟨sh, a, nb, d, sh2, r, nb2, ha, hb, hc, hd⟩
  · exact Or.inl ⟨h4 ha, hb, hc, hd⟩
  · exact Or.inr (Or.inl ⟨t, sq, ha, hb, hc, h5 hd⟩)
  · exact Or.inr (Or.inr (Or.inl ⟨sh, a, nb, ha, hb, hc, h5 hd⟩))
  · exact Or.inr (Or.inr (Or.inr (Or.inl ⟨t, sq, sh, a, nb, ha, hb, hc, h5 hd⟩)))
  · exact Or.inr (Or.inr (Or.inr (Or.inr (Or.inl
      ⟨t, sq, sh, a, nb, d, ha, hb, hc, h5 hd⟩))))
  · exact Or.inr (Or.inr (Or.inr (Or.inr (Or.inr
      ⟨sh, a, nb, d, sh2, r, nb2, ha, hb, hc, h5 hd⟩))))

theorem genOk_congr (P : EngineParams) {s s' : SimState}
    (h1 : custTok 0 s' = custTok 0 s) (h2 : waitTok 0 s' = waitTok 0 s)
    (h3 : custTrace 0 s' = custTrace 0 s) (h4 : s'.nextPid = s.nextPid)
    (h : GenOk P s) : GenOk P s' := by
  unfold GenOk at h ⊢
  rw [h1, h2, h3, h4]
  exact h

theorem genCanon_succ (P : EngineParams) (k : ℕ) :
    genCanon P (k + 1)
      = genCanon P k
        ++ [.spawnA 0 (k + 1), .sleepA 0 .interArrival (P.iat (k + 1))] := by
  simp [genCanon, List.range_succ]

theorem filter_cons_eq_nil {α : Type} {f : α → Bool} {x : α} {xs : List α}
    (h : (x :: xs).filter f = []) : xs.filter f = [] := by
  rcases hf : f x with _ | _
  · simpa [List.filter_cons, hf] using h
  · simp [List.filter_cons, hf] at h

theorem filter_cons_eq_single {α : Type} {f : α → Bool} {x : α} {xs : List α}
    {y : α} (hfx : f x = true) (h : (x :: xs).filter f = [y]) :
    x = y ∧ xs.filter f = [] := by
  rw [List.filter_cons, hfx] at h
  simp only [if_true, List.cons.injEq] at h
  exact h

theorem custTok_record (q : ℕ) (l : List Ev) (nowv : Time)
    (nsq npd : ℕ) (r : Resource) (sm : List Time) (sv : ℕ) (tr : List Act)
    (er : Bool) :
    custTok q ⟨nowv, l, nsq, npd, r, sm, sv, tr, er⟩
      = l.filter (fun ev => ev.pid == q) := rfl

theorem custTrace_record (q : ℕ) (l : List Ev) (nowv : Time)
    (nsq npd : ℕ) (r : Resource) (sm : List Time) (sv : ℕ) (tr : List Act)
    (er : Bool) :
    custTrace q ⟨nowv, l, nsq, npd, r, sm, sv, tr, er⟩
      = tr.filter (fun a => a.actor == q) := rfl

theorem waitTok_record (q : ℕ) (l : List Ev) (nowv : Time)
    (nsq npd : ℕ) (r : Resource) (sm : List Time) (sv : ℕ) (tr : List Act)
    (er : Bool) :
    waitTok q ⟨nowv, l, nsq, npd, r, sm, sv, tr, er⟩
      = r.waitq.filter (fun z => z.1 == q) := rfl

theorem inv_exec_genSleep (P : EngineParams) (s : SimState) (e : Ev)
    (herr : s.err = false)
    (htok : custTok 0 s = [⟨0, 0, 0, .genArrSleep 0⟩])
    (hwq : waitTok 0 s = []) (htr : custTrace 0 s = []) (hnp : s.nextPid = 1)
    (hcust : ∀ p, 1 ≤ p → CustOk P s p)
    (hee : e = ⟨0, 0, 0, .genArrSleep 0⟩) :
    EngineInv P (exec P { s with evs := s.evs.erase e, now := e.time } e) := by
  have hpid : e.pid = 0 := by rw [hee]
  have hproc : e.proc = Proc.genArrSleep 0 := by rw [hee]
  have htime : e.time = 0 := by rw [hee]
  have hcondp : (fun ev : Ev => ev.pid == (0 : ℕ)) e = true := by simp [hpid]
  have herase : (s.evs.erase e).filter (fun ev => ev.pid == (0 : ℕ)) = [] := by
    rw [@filter_erase_pos Ev _ (fun ev => ev.pid == (0 : ℕ)) e s.evs hcondp]
    rw [show s.evs.filter (fun ev => ev.pid == (0 : ℕ)) = custTok 0 s from rfl,
      htok, hee]
    simp
  refine ⟨?_, ?_, ?_⟩
  · simp only [exec, hproc]
    exact herr
  · refine Or.inr ⟨0, s.nextSeq, ?_, ?_, ?_, ?_⟩
    · simp only [exec, hproc, custTok_record, List.filter_append, herase,
        List.nil_append, htime]
      simp [cumIat, hpid]
    · simp only [exec, hproc, waitTok_record]
      exact hwq
    · simp only [exec, hproc, custTrace_record, List.filter_append]
      rw [show s.trace.filter (fun a => a.actor == (0 : ℕ)) = custTrace 0 s
          from rfl, htr]
      simp [genCanon, Act.actor, hpid]
    · simp only [exec, hproc]
      exact hnp
  · intro q hq
    have hqne : ¬ (e.pid == q) = true := by simp [hpid]; omega
    refine custOk_congr P q ?_ ?_ ?_ (fun hle => by simpa [exec, hproc] using hle)
      (fun hlt => by simpa [exec, hproc] using hlt) (hcust q hq)
    · simp only [exec, hproc, custTok_record, List.filter_append]
      rw [@filter_erase_neg Ev _ (fun ev => ev.pid == q) e s.evs
          (by simpa using hqne)]
      have : (List.filter (fun ev => ev.pid == q)
          [(⟨e.time + P.iat 0, s.nextSeq, e.pid, .genArrSpawn 0⟩ : Ev)]) = [] := by
        simp [hpid]
        omega
      rw [this, List.append_nil]
      rfl
    · simp only [exec, hproc, waitTok_record]
      rfl
    · simp only [exec, hproc, custTrace_record, List.filter_append]
      have : (List.filter (fun a => a.actor == q)
          [Act.sleepA e.pid .interArrival (P.iat 0)]) = [] := by
        simp [Act.actor, hpid]
        omega
      rw [this, List.append_nil]
      rfl

theorem inv_exec_genSpawn (P : EngineParams) (s : SimState) (e : Ev) (k sq : ℕ)
    (herr : s.err = false)
    (htok : custTok 0 s = [⟨cumIat P (k + 1), sq, 0, .genArrSpawn k⟩])
    (hwq : waitTok 0 s = []) (htr : custTrace 0 s = genCanon P k)
    (hnp : s.nextPid = k + 1)
    (hcust : ∀ p, 1 ≤ p → CustOk P s p)
    (hee : e = ⟨cumIat P (k + 1), sq, 0, .genArrSpawn k⟩) :
    EngineInv P (exec P { s with evs := s.evs.erase e, now := e.time } e) := by
  have hpid : e.pid = 0 := by rw [hee]
  have hproc : e.proc = Proc.genArrSpawn k := by rw [hee]
  have htime : e.time = cumIat P (k + 1) := by rw [hee]
  have hcondp : (fun ev : Ev => ev.pid == (0 : ℕ)) e = true := by simp [hpid]
  have herase : (s.evs.erase e).filter (fun ev => ev.pid == (0 : ℕ)) = [] := by
    rw [@filter_erase_pos Ev _ (fun ev => ev.pid == (0 : ℕ)) e s.evs hcondp]
    rw [show s.evs.filter (fun ev => ev.pid == (0 : ℕ)) = custTok 0 s from rfl,
      htok, hee]
    simp
  refine ⟨?_, ?_, ?_⟩
  · simp only [exec, hproc]
    exact herr
  · refine Or.inr ⟨k + 1, s.nextSeq + 1, ?_, ?_, ?_, ?_⟩
    · simp only [exec, hproc, custTok_record, List.filter_append, herase,
        List.nil_append, htime]
      simp [cumIat, hpid, hnp]
    · simp only [exec, hproc, waitTok_record]
      exact hwq
    · simp only [exec, hproc, custTrace_record, List.filter_append]
      rw [show s.trace.filter (fun a => a.actor == (0 : ℕ)) = custTrace 0 s
          from rfl, htr, genCanon_succ]
      simp [Act.actor, hpid, hnp]
    · simp only [exec, hproc]
      omega
  · intro q hq
    have hqne0 : (e.pid == q) = false := by simp [hpid]; omega
    by_cases hqc : q = s.nextPid
    · -- the freshly spawned customer
      have hA : CustOk P s q := hcust q hq
      have hAcase : custTok q s = [] ∧ waitTok q s = [] ∧ custTrace q s = [] := by
        unfold CustOk at hA
        rcases hA with ⟨ha, hb, hc, hd⟩ | ⟨t, sq2, ha, hb, hc, hd⟩
          | ⟨sh, a, nb, ha, hb, hc, hd⟩ | ⟨t, sq2, sh, a, nb, ha, hb, hc, hd⟩
          | ⟨t, sq2, sh, a, nb, d, ha, hb, hc, hd⟩
          | ⟨sh, a, nb, d, sh2, r, nb2, ha, hb, hc, hd⟩
        · exact ⟨hb, hc, hd⟩
        all_goals exact absurd hd (by omega)
      unfold CustOk
      refine Or.inr (Or.inl ⟨e.time, s.nextSeq, ?_, ?_, ?_, ?_⟩)
      · simp only [exec, hproc, custTok_record, List.filter_append]
        rw [@filter_erase_neg Ev _ (fun ev => ev.pid == q) e s.evs (by simpa using hqne0)]
        rw [show s.evs.filter (fun ev => ev.pid == q) = custTok q s from rfl,
          hAcase.1]
        simp [hqc, hpid]
        omega
      · simp only [exec, hproc, waitTok_record]
        exact hAcase.2.1
      · simp only [exec, hproc, custTrace_record, List.filter_append]
        rw [show s.trace.filter (fun a => a.actor == q) = custTrace q s from rfl,
          hAcase.2.2]
        simp [Act.actor, hpid]
        omega
      · simp only [exec, hproc]
        omega
    · refine custOk_congr P q ?_ ?_ ?_
        (fun hle => by simp only [exec, hproc]; omega)
        (fun hlt => by simp only [exec, hproc]; omega) (hcust q hq)
      · simp only [exec, hproc, custTok_record, List.filter_append]
        rw [@filter_erase_neg Ev _ (fun ev => ev.pid == q) e s.evs
            (by simpa using hqne0)]
        have hnil : (List.filter (fun ev => ev.pid == q)
            [(⟨e.time, s.nextSeq, s.nextPid, .custStart⟩ : Ev),
             ⟨e.time + P.iat (k + 1), s.nextSeq + 1, e.pid, .genArrSpawn (k + 1)⟩])
            = [] := by
          simp [hpid]
          omega
        rw [hnil, List.append_nil]
        rfl
      · simp only [exec, hproc, waitTok_record]
        rfl
      · simp only [exec, hproc, custTrace_record, List.filter_append]
        have hnil : (List.filter (fun a => a.actor == q)
            [Act.spawnA e.pid s.nextPid,
             Act.sleepA e.pid .interArrival (P.iat (k + 1))]) = [] := by
          simp [Act.actor, hpid]
          omega
        rw [hnil, List.append_nil]
        rfl

theorem inv_exec_custStart (P : EngineParams)
    (hgc : P.gclock ≠ GlobalClock.unbound) (s : SimState) (e : Ev)
    (t0 : Time) (sq p : ℕ)
    (herr : s.err = false) (hgen : GenOk P s)
    (htok : custTok p s = [⟨t0, sq, p, .custStart⟩])
    (hwq : waitTok p s = []) (htr : custTrace p s = [])
    (hplt : p < s.nextPid) (hp1 : 1 ≤ p)
    (hcust : ∀ q, 1 ≤ q → CustOk P s q)
    (hee : e = ⟨t0, sq, p, .custStart⟩) :
    EngineInv P (exec P { s with evs := s.evs.erase e, now := e.time } e) := by
  have hpid : e.pid = p := by rw [hee]
  have hproc : e.proc = Proc.custStart := by rw [hee]
  have hcondp : (fun ev : Ev => ev.pid == p) e = true := by simp [hpid]
  have herase : (s.evs.erase e).filter (fun ev => ev.pid == p) = [] := by
    rw [@filter_erase_pos Ev _ (fun ev => ev.pid == p) e s.evs hcondp]
    rw [show s.evs.filter (fun ev => ev.pid == p) = custTok p s from rfl,
      htok, hee]
    simp
  obtain ⟨tS, hsh⟩ : ∃ tS,
      shownNow P { s with evs := s.evs.erase e, now := e.time } = some tS := by
    cases hg2 : P.gclock with
    | selfSim => exact ⟨e.time, by simp [shownNow, hg2]⟩
    | other g => exact ⟨g, by simp [shownNow, hg2]⟩
    | unbound => exact absurd hg2 hgc
  by_cases hin : s.res.inService = []
  · -- server free: acquire succeeds at once, sleep through the service draw
    refine ⟨?_, ?_, ?_⟩
    · simp only [exec, hproc, hsh, hin, if_true]
      exact herr
    · refine genOk_congr P ?_ ?_ ?_ ?_ hgen
      · simp only [exec, hproc, hsh, hin, if_true, custTok_record,
          List.filter_append]
        rw [@filter_erase_neg Ev _ (fun ev => ev.pid == (0 : ℕ)) e s.evs
            (by simp [hpid]; omega)]
        have hnil : (List.filter (fun ev => ev.pid == (0 : ℕ))
            [(⟨e.time + P.sv s.svIdx, s.nextSeq, e.pid, .custFinish e.time⟩ : Ev)])
            = [] := by
          simp [hpid]
          omega
        rw [hnil, List.append_nil]
        rfl
      · simp only [exec, hproc, hsh, hin, if_true, waitTok_record]
        rfl
      · simp only [exec, hproc, hsh, hin, if_true, custTrace_record,
          List.filter_append]
        have hnil : (List.filter (fun a => a.actor == (0 : ℕ))
            [Act.logA e.pid tS e.time s.res.num_in_system (s.res.num_in_system + 1),
             Act.acquireA e.pid e.time,
             Act.sleepA e.pid .service (P.sv s.svIdx)]) = [] := by
          simp [Act.actor, hpid]
          omega
        rw [hnil, List.append_nil]
        rfl
      · simp only [exec, hproc, hsh, hin, if_true]
    · intro q hq
      by_cases hqp : q = p
      · subst hqp
        unfold CustOk
        refine Or.inr (Or.inr (Or.inr (Or.inr (Or.inl
          ⟨e.time + P.sv s.svIdx, s.nextSeq, tS, e.time,
           s.res.num_in_system, P.sv s.svIdx, ?_, ?_, ?_, ?_⟩))))
        · simp only [exec, hproc, hsh, hin, if_true, custTok_record,
            List.filter_append, herase, List.nil_append]
          simp [hpid]
        · simp only [exec, hproc, hsh, hin, if_true, waitTok_record]
          exact hwq
        · simp only [exec, hproc, hsh, hin, if_true, custTrace_record,
            List.filter_append]
          rw [show s.trace.filter (fun a => a.actor == q) = custTrace q s
              from rfl, htr]
          simp [shapeSleep, shapeAcq, Act.actor, hpid]
        · simp only [exec, hproc, hsh, hin, if_true]
          exact hplt
      · refine custOk_congr P q ?_ ?_ ?_
          (fun hle => by simpa only [exec, hproc, hsh, hin, if_true] using hle)
          (fun hlt => by simpa only [exec, hproc, hsh, hin, if_true] using hlt)
          (hcust q hq)
        · simp only [exec, hproc, hsh, hin, if_true, custTok_record,
            List.filter_append]
          rw [@filter_erase_neg Ev _ (fun ev => ev.pid == q) e s.evs
              (by simp [hpid]; omega)]
          have hnil : (List.filter (fun ev => ev.pid == q)
              [(⟨e.time + P.sv s.svIdx, s.nextSeq, e.pid, .custFinish e.time⟩ : Ev)])
              = [] := by
            simp [hpid]
            omega
          rw [hnil, List.append_nil]
          rfl
        · simp only [exec, hproc, hsh, hin, if_true, waitTok_record]
          rfl
        · simp only [exec, hproc, hsh, hin, if_true, custTrace_record,
            List.filter_append]
          have hnil : (List.filter (fun a => a.actor == q)
              [Act.logA e.pid tS e.time s.res.num_in_system
                 (s.res.num_in_system + 1),
               Act.acquireA e.pid e.time,
               Act.sleepA e.pid .service (P.sv s.svIdx)]) = [] := by
            simp [Act.actor, hpid]
            omega
          rw [hnil, List.append_nil]
          rfl
  · -- server busy: join the FIFO wait queue
    refine ⟨?_, ?_, ?_⟩
    · simp only [exec, hproc, hsh, hin, if_false]
      exact herr
    · refine genOk_congr P ?_ ?_ ?_ ?_ hgen
      · simp only [exec, hproc, hsh, hin, if_false, custTok_record]
        rw [@filter_erase_neg Ev _ (fun ev => ev.pid == (0 : ℕ)) e s.evs
            (by simp [hpid]; omega)]
        rfl
      · simp only [exec, hproc, hsh, hin, if_false, waitTok_record,
          List.filter_append]
        have hnil : (List.filter (fun z : ℕ × Time => z.1 == (0 : ℕ))
            [(e.pid, e.time)]) = [] := by
          simp [hpid]
          omega
        rw [hnil, List.append_nil]
        rfl
      · simp only [exec, hproc, hsh, hin, if_false, custTrace_record,
          List.filter_append]
        have hnil : (List.filter (fun a => a.actor == (0 : ℕ))
            [Act.logA e.pid tS e.time s.res.num_in_system
               (s.res.num_in_system + 1),
             Act.acquireA e.pid e.time]) = [] := by
          simp [Act.actor, hpid]
          omega
        rw [hnil, List.append_nil]
        rfl
      · simp only [exec, hproc, hsh, hin, if_false]
    · intro q hq
      by_cases hqp : q = p
      · subst hqp
        unfold CustOk
        refine Or.inr (Or.inr (Or.inl
          ⟨tS, e.time, s.res.num_in_system, ?_, ?_, ?_, ?_⟩))
        · simp only [exec, hproc, hsh, hin, if_false, custTok_record]
          exact herase
        · simp only [exec, hproc, hsh, hin, if_false, waitTok_record,
            List.filter_append]
          rw [show s.res.waitq.filter (fun z => z.1 == q) = waitTok q s
              from rfl, hwq]
          simp [hpid]
        · simp only [exec, hproc, hsh, hin, if_false, custTrace_record,
            List.filter_append]
          rw [show s.trace.filter (fun a => a.actor == q) = custTrace q s
              from rfl, htr]
          simp [shapeAcq, Act.actor, hpid]
        · simp only [exec, hproc, hsh, hin, if_false]
          exact hplt
      · refine custOk_congr P q ?_ ?_ ?_
          (fun hle => by simpa only [exec, hproc, hsh, hin, if_false] using hle)
          (fun hlt => by simpa only [exec, hproc, hsh, hin, if_false] using hlt)
          (hcust q hq)
        · simp only [exec, hproc, hsh, hin, if_false, custTok_record]
          rw [@filter_erase_neg Ev _ (fun ev => ev.pid == q) e s.evs
              (by simp [hpid]; omega)]
          rfl
        · simp only [exec, hproc, hsh, hin, if_false, waitTok_record,
            List.filter_append]
          have hnil : (List.filter (fun z : ℕ × Time => z.1 == q)
              [(e.pid, e.time)]) = [] := by
            simp [hpid]
            omega
          rw [hnil, List.append_nil]
          rfl
        · simp only [exec, hproc, hsh, hin, if_false, custTrace_record,
            List.filter_append]
          have hnil : (List.filter (fun a => a.actor == q)
              [Act.logA e.pid tS e.time s.res.num_in_system
                 (s.res.num_in_system + 1),
               Act.acquireA e.pid e.time]) = [] := by
            simp [Act.actor, hpid]
            omega
          rw [hnil, List.append_nil]
          rfl

theorem inv_exec_custAcquired (P : EngineParams) (s : SimState) (e : Ev)
    (t0 : Time) (sq p : ℕ) (sh a : Time) (nb : ℤ)
    (herr : s.err = false) (hgen : GenOk P s)
    (htok : custTok p s = [⟨t0, sq, p, .custAcquired a⟩])
    (hwq : waitTok p s = []) (htr : custTrace p s = shapeAcq p sh a nb)
    (hplt : p < s.nextPid) (hp1 : 1 ≤ p)
    (hcust : ∀ q, 1 ≤ q → CustOk P s q)
    (hee : e = ⟨t0, sq, p, .custAcquired a⟩) :
    EngineInv P (exec P { s with evs := s.evs.erase e, now := e.time } e) := by
  have hpid : e.pid = p := by rw [hee]
  have hproc : e.proc = Proc.custAcquired a := by rw [hee]
  have hcondp : (fun ev : Ev => ev.pid == p) e = true := by simp [hpid]
  have herase : (s.evs.erase e).filter (fun ev => ev.pid == p) = [] := by
    rw [@filter_erase_pos Ev _ (fun ev => ev.pid == p) e s.evs hcondp]
    rw [show s.evs.filter (fun ev => ev.pid == p) = custTok p s from rfl,
      htok, hee]
    simp
  refine ⟨?_, ?_, ?_⟩
  · simp only [exec, hproc]
    exact herr
  · refine genOk_congr P ?_ ?_ ?_ ?_ hgen
    · simp only [exec, hproc, custTok_record, List.filter_append]
      rw [@filter_erase_neg Ev _ (fun ev => ev.pid == (0 : ℕ)) e s.evs
          (by simp [hpid]; omega)]
      have hnil : (List.filter (fun ev => ev.pid == (0 : ℕ))
          [(⟨e.time + P.sv s.svIdx, s.nextSeq, e.pid, .custFinish a⟩ : Ev)])
          = [] := by
        simp [hpid]
        omega
      rw [hnil, List.append_nil]
      rfl
    · simp only [exec, hproc, waitTok_record]
      rfl
    · simp only [exec, hproc, custTrace_record, List.filter_append]
      have hnil : (List.filter (fun a0 => a0.actor == (0 : ℕ))
          [Act.sleepA e.pid .service (P.sv s.svIdx)]) = [] := by
        simp [Act.actor, hpid]
        omega
      rw [hnil, List.append_nil]
      rfl
    · simp only [exec, hproc]
  · intro q hq
    by_cases hqp : q = p
    · subst hqp
      unfold CustOk
      refine Or.inr (Or.inr (Or.inr (Or.inr (Or.inl
        ⟨e.time + P.sv s.svIdx, s.nextSeq, sh, a, nb, P.sv s.svIdx,
         ?_, ?_, ?_, ?_⟩))))
      · simp only [exec, hproc, custTok_record, List.filter_append, herase,
          List.nil_append]
        simp [hpid]
      · simp only [exec, hproc, waitTok_record]
        exact hwq
      · simp only [exec, hproc, custTrace_record, List.filter_append]
        rw [show s.trace.filter (fun a0 => a0.actor == q) = custTrace q s
            from rfl, htr]
        simp [shapeSleep, Act.actor, hpid]
      · simp only [exec, hproc]
        exact hplt
    · refine custOk_congr P q ?_ ?_ ?_
        (fun hle => by simpa only [exec, hproc] using hle)
        (fun hlt => by simpa only [exec, hproc] using hlt) (hcust q hq)
      · simp only [exec, hproc, custTok_record, List.filter_append]
        rw [@filter_erase_neg Ev _ (fun ev => ev.pid == q) e s.evs
            (by simp [hpid]; omega)]
        have hnil : (List.filter (fun ev => ev.pid == q)
            [(⟨e.time + P.sv s.svIdx, s.nextSeq, e.pid, .custFinish a⟩ : Ev)])
            = [] := by
          simp [hpid]
          omega
        rw [hnil, List.append_nil]
        rfl
      · simp only [exec, hproc, waitTok_record]
        rfl
      · simp only [exec, hproc, custTrace_record, List.filter_append]
        have hnil : (List.filter (fun a0 => a0.actor == q)
            [Act.sleepA e.pid .service (P.sv s.svIdx)]) = [] := by
          simp [Act.actor, hpid]
          omega
        rw [hnil, List.append_nil]
        rfl

theorem inv_exec_custFinish (P : EngineParams)
    (hgc : P.gclock ≠ GlobalClock.unbound) (s : SimState) (e : Ev)
    (t0 : Time) (sq p : ℕ) (sh a : Time) (nb : ℤ) (d : Time)
    (herr : s.err = false) (hgen : GenOk P s)
    (htok : custTok p s = [⟨t0, sq, p, .custFinish a⟩])
    (hwq : waitTok p s = []) (htr : custTrace p s = shapeSleep p sh a nb d)
    (hplt : p < s.nextPid) (hp1 : 1 ≤ p)
    (hcust : ∀ q, 1 ≤ q → CustOk P s q)
    (hee : e = ⟨t0, sq, p, .custFinish a⟩) :
    EngineInv P (exec P { s with evs := s.evs.erase e, now := e.time } e) := by
  have hpid : e.pid = p := by rw [hee]
  have hproc : e.proc = Proc.custFinish a := by rw [hee]
  have hcondp : (fun ev : Ev => ev.pid == p) e = true := by simp [hpid]
  have herase : (s.evs.erase e).filter (fun ev => ev.pid == p) = [] := by
    rw [@filter_erase_pos Ev _ (fun ev => ev.pid == p) e s.evs hcondp]
    rw [show s.evs.filter (fun ev => ev.pid == p) = custTok p s from rfl,
      htok, hee]
    simp
  obtain ⟨tS, hsh⟩ : ∃ tS,
      shownNow P { s with evs := s.evs.erase e, now := e.time } = some tS := by
    cases hg2 : P.gclock with
    | selfSim => exact ⟨e.time, by simp [shownNow, hg2]⟩
    | other g => exact ⟨g, by simp [shownNow, hg2]⟩
    | unbound => exact absurd hg2 hgc
  have hw0 : waitTok 0 s = [] := by
    rcases hgen with ⟨-, hw0, -, -⟩ | ⟨k, sq2, -, hw0, -, -⟩ <;> exact hw0
  have hfilt1 : ∀ (q : ℕ), q ≠ p → (List.filter (fun a0 => a0.actor == q)
      [Act.logA e.pid tS e.time s.res.num_in_system (s.res.num_in_system - 1),
       Act.releaseA e.pid]) = [] := by
    intro q hqp
    simp [Act.actor, hpid, hqp, Ne.symm hqp]
  have hfilt2 : ∀ (q : ℕ), q ≠ p → (List.filter (fun a0 => a0.actor == q)
      (if P.collect = true then [Act.recordA e.pid (e.time - a)] else []))
      = [] := by
    intro q hqp
    by_cases hcol : P.collect = true <;>
      simp [hcol, Act.actor, hpid, hqp, Ne.symm hqp]
  rcases hw : s.res.waitq with _ | ⟨⟨q0, aq⟩, rest⟩
  · -- empty wait queue: the server goes idle
    refine ⟨?_, ?_, ?_⟩
    · simp only [exec, hproc, hsh, hw]
      exact herr
    · refine genOk_congr P ?_ ?_ ?_ ?_ hgen
      · simp only [exec, hproc, hsh, hw, custTok_record]
        rw [@filter_erase_neg Ev _ (fun ev => ev.pid == (0 : ℕ)) e s.evs
            (by simp [hpid]; omega)]
        rfl
      · simp only [exec, hproc, hsh, hw, waitTok_record]
        simp [hw0]
      · simp only [exec, hproc, hsh, hw, custTrace_record, List.filter_append]
        rw [hfilt1 0 (by omega), hfilt2 0 (by omega)]
        simp
        rfl
      · simp only [exec, hproc, hsh, hw]
    · intro q hq
      by_cases hqp : q = p
      · subst hqp
        unfold CustOk
        refine Or.inr (Or.inr (Or.inr (Or.inr (Or.inr
          ⟨sh, a, nb, d, tS, e.time, s.res.num_in_system, ?_, ?_, ?_, ?_⟩))))
        · simp only [exec, hproc, hsh, hw, custTok_record]
          exact herase
        · simp only [exec, hproc, hsh, hw, waitTok_record]
          simp
        · simp only [exec, hproc, hsh, hw, custTrace_record, List.filter_append]
          rw [show s.trace.filter (fun a0 => a0.actor == q) = custTrace q s
              from rfl, htr]
          unfold shapeFull
          congr 1
          by_cases hcol : P.collect = true <;>
            simp [hcol, Act.actor, hpid]
        · simp only [exec, hproc, hsh, hw]
          exact hplt
      · refine custOk_congr P q ?_ ?_ ?_
          (fun hle => by simpa only [exec, hproc, hsh, hw] using hle)
          (fun hlt => by simpa only [exec, hproc, hsh, hw] using hlt)
          (hcust q hq)
        · simp only [exec, hproc, hsh, hw, custTok_record]
          rw [@filter_erase_neg Ev _ (fun ev => ev.pid == q) e s.evs
              (by simp [hpid]; omega)]
          rfl
        · simp only [exec, hproc, hsh, hw, waitTok_record]
          simp [waitTok, hw]
        · simp only [exec, hproc, hsh, hw, custTrace_record, List.filter_append]
          rw [hfilt1 q hqp, hfilt2 q hqp]
          simp
          rfl
  · -- a waiter is granted the server
    have hq0mem : ((q0, aq) : ℕ × Time) ∈ s.res.waitq := by rw [hw]; simp
    have hq0ne0 : q0 ≠ 0 := by
      intro h0
      have : ((q0, aq) : ℕ × Time) ∈ waitTok 0 s :=
        List.mem_filter.mpr ⟨hq0mem, by simp [h0]⟩
      rw [hw0] at this
      simp at this
    have hq0nep : q0 ≠ p := by
      intro h0
      have : ((q0, aq) : ℕ × Time) ∈ waitTok p s :=
        List.mem_filter.mpr ⟨hq0mem, by simp [h0]⟩
      rw [hwq] at this
      simp at this
    have hq0c : CustOk P s q0 := hcust q0 (by omega)
    have hwtok : waitTok q0 s = ((q0, aq) : ℕ × Time) :: rest.filter (fun z => z.1 == q0) := by
      rw [waitTok, hw]
      simp
    obtain ⟨sh0, a0, nb0, htok0, hwq0, htr0, hlt0⟩ :
        ∃ sh0 a0 nb0, custTok q0 s = [] ∧ waitTok q0 s = [(q0, a0)]
          ∧ custTrace q0 s = shapeAcq q0 sh0 a0 nb0 ∧ q0 < s.nextPid := by
      unfold CustOk at hq0c
      rcases hq0c with ⟨ha, hb, hc, hd⟩ | ⟨t, sq2, ha, hb, hc, hd⟩
        | ⟨sh0, a0, nb0, ha, hb, hc, hd⟩ | ⟨t, sq2, sh0, a0, nb0, ha, hb, hc, hd⟩
        | ⟨t, sq2, sh0, a0, nb0, d0, ha, hb, hc, hd⟩
        | ⟨sh0, a0, nb0, d0, sh2, r, nb2, ha, hb, hc, hd⟩
      · rw [hwtok] at hc; simp at hc
      · rw [hwtok] at hb; simp at hb
      · exact ⟨sh0, a0, nb0, ha, hb, hc, hd⟩
      · rw [hwtok] at hb; simp at hb
      · rw [hwtok] at hb; simp at hb
      · rw [hwtok] at hb; simp at hb
    have haq : aq = a0 ∧ rest.filter (fun z => z.1 == q0) = [] := by
      rw [hwtok] at hwq0
      injection hwq0 with h1 h2
      exact ⟨congrArg Prod.snd h1, h2⟩
    refine ⟨?_, ?_, ?_⟩
    · simp only [exec, hproc, hsh, hw]
      exact herr
    · refine genOk_congr P ?_ ?_ ?_ ?_ hgen
      · simp only [exec, hproc, hsh, hw, custTok_record, List.filter_append]
        rw [@filter_erase_neg Ev _ (fun ev => ev.pid == (0 : ℕ)) e s.evs
            (by simp [hpid]; omega)]
        have hnil : (List.filter (fun ev => ev.pid == (0 : ℕ))
            [(⟨e.time, s.nextSeq, q0, .custAcquired aq⟩ : Ev)]) = [] := by
          simp
          omega
        rw [hnil, List.append_nil]
        rfl
      · simp only [exec, hproc, hsh, hw, waitTok_record]
        have hx : rest.filter (fun z => z.1 == (0 : ℕ)) = [] := by
          have h0 : waitTok 0 s = [] := hw0
          rw [waitTok, hw] at h0
          exact filter_cons_eq_nil h0
        rw [hx, hw0]
      · simp only [exec, hproc, hsh, hw, custTrace_record, List.filter_append]
        rw [hfilt1 0 (by omega), hfilt2 0 (by omega)]
        simp
        rfl
      · simp only [exec, hproc, hsh, hw]
    · intro q hq
      by_cases hqp : q = p
      · subst hqp
        unfold CustOk
        refine Or.inr (Or.inr (Or.inr (Or.inr (Or.inr
          ⟨sh, a, nb, d, tS, e.time, s.res.num_in_system, ?_, ?_, ?_, ?_⟩))))
        · simp only [exec, hproc, hsh, hw, custTok_record, List.filter_append,
            herase, List.nil_append]
          simp [hq0nep]
        · simp only [exec, hproc, hsh, hw, waitTok_record]
          have hx : waitTok q s = [] := hwq
          rw [waitTok, hw] at hx
          exact filter_cons_eq_nil hx
        · simp only [exec, hproc, hsh, hw, custTrace_record, List.filter_append]
          rw [show s.trace.filter (fun a0 => a0.actor == q) = custTrace q s
              from rfl, htr]
          unfold shapeFull
          congr 1
          by_cases hcol : P.collect = true <;>
            simp [hcol, Act.actor, hpid]
        · simp only [exec, hproc, hsh, hw]
          exact hplt
      · by_cases hqq0 : q = q0
        · subst hqq0
          unfold CustOk
          refine Or.inr (Or.inr (Or.inr (Or.inl
            ⟨e.time, s.nextSeq, sh0, aq, nb0, ?_, ?_, ?_, ?_⟩)))
          · simp only [exec, hproc, hsh, hw, custTok_record, List.filter_append]
            rw [@filter_erase_neg Ev _ (fun ev => ev.pid == q) e s.evs
                (by simp [hpid]; omega)]
            rw [show s.evs.filter (fun ev => ev.pid == q) = custTok q s
                from rfl, htok0]
            simp
          · simp only [exec, hproc, hsh, hw, waitTok_record]
            exact haq.2
          · simp only [exec, hproc, hsh, hw, custTrace_record,
              List.filter_append]
            rw [hfilt1 q hqp, hfilt2 q hqp]
            simp only [List.append_nil]
            rw [show s.trace.filter (fun a0 => a0.actor == q) = custTrace q s
                from rfl, htr0, haq.1]
          · simp only [exec, hproc, hsh, hw]
            exact hlt0
        · refine custOk_congr P q ?_ ?_ ?_
            (fun hle => by simpa only [exec, hproc, hsh, hw] using hle)
            (fun hlt => by simpa only [exec, hproc, hsh, hw] using hlt)
            (hcust q hq)
          · simp only [exec, hproc, hsh, hw, custTok_record, List.filter_append]
            rw [@filter_erase_neg Ev _ (fun ev => ev.pid == q) e s.evs
                (by simp [hpid]; omega)]
            have hnil : (List.filter (fun ev => ev.pid == q)
                [(⟨e.time, s.nextSeq, q0, .custAcquired aq⟩ : Ev)]) = [] := by
              simp
              omega
            rw [hnil, List.append_nil]
            rfl
          · simp only [exec, hproc, hsh, hw, waitTok_record]
            rw [show waitTok q s = ((q0, aq) :: rest).filter (fun z => z.1 == q)
                from by rw [waitTok, hw]]
            simp [Ne.symm hqq0]
          · simp only [exec, hproc, hsh, hw, custTrace_record,
              List.filter_append]
            rw [hfilt1 q hqp, hfilt2 q hqp]
            simp
            rfl

theorem engineInv_exec (P : EngineParams) (hgc : P.gclock ≠ GlobalClock.unbound)
    (s : SimState) (e : Ev) (he : e ∈ s.evs) (h : EngineInv P s) :
    EngineInv P (exec P { s with evs := s.evs.erase e, now := e.time } e) := by
  obtain ⟨herr, hgen, hcust⟩ := h
  by_cases hpid : e.pid = 0
  · have hmem : e ∈ custTok 0 s := List.mem_filter.mpr ⟨he, by simp [hpid]⟩
    rcases hgen with ⟨htok, hwq, htr, hnp⟩ | ⟨k, sq, htok, hwq, htr, hnp⟩
    · rw [htok] at hmem
      have hee : e = ⟨0, 0, 0, .genArrSleep 0⟩ := by simpa using hmem
      exact inv_exec_genSleep P s e herr htok hwq htr hnp hcust hee
    · rw [htok] at hmem
      have hee : e = ⟨cumIat P (k + 1), sq, 0, .genArrSpawn k⟩ := by
        simpa using hmem
      exact inv_exec_genSpawn P s e k sq herr htok hwq htr hnp hcust hee
  · have hp1 : 1 ≤ e.pid := by omega
    have hmem : e ∈ custTok e.pid s := List.mem_filter.mpr ⟨he, by simp⟩
    have hc := hcust e.pid hp1
    unfold CustOk at hc
    rcases hc with ⟨ha, hb, hc2, hd⟩ | ⟨t, sq, ha, hb, hc2, hd⟩
      | ⟨sh, a, nb, ha, hb, hc2, hd⟩ | ⟨t, sq, sh, a, nb, ha, hb, hc2, hd⟩
      | ⟨t, sq, sh, a, nb, d, ha, hb, hc2, hd⟩
      | ⟨sh, a, nb, d, sh2, r, nb2, ha, hb, hc2, hd⟩
    · rw [hb] at hmem
      simp at hmem
    · rw [ha] at hmem
      have hee : e = ⟨t, sq, e.pid, .custStart⟩ := by simpa using hmem
      exact inv_exec_custStart P hgc s e t sq e.pid herr
        (by exact (⟨herr, by assumption, hcust⟩ : EngineInv P s).2.1) ha hb hc2 hd
        hp1 hcust hee
    · rw [ha] at hmem
      simp at hmem
    · rw [ha] at hmem
      have hee : e = ⟨t, sq, e.pid, .custAcquired a⟩ := by simpa using hmem
      exact inv_exec_custAcquired P s e t sq e.pid sh a nb herr
        (by assumption) ha hb hc2 hd hp1 hcust hee
    · rw [ha] at hmem
      have hee : e = ⟨t, sq, e.pid, .custFinish a⟩ := by simpa using hmem
      exact inv_exec_custFinish P hgc s e t sq e.pid sh a nb d herr
        (by assumption) ha hb hc2 hd hp1 hcust hee
    · rw [ha] at hmem
      simp at hmem

theorem engineInv_stepSim (P : EngineParams)
    (hgc : P.gclock ≠ GlobalClock.unbound) (s : SimState)
    (h : EngineInv P s) : EngineInv P (stepSim P s) := by
  by_cases he : s.err
  · simpa [stepSim, he] using h
  · rcases hp : pickMin s.evs with _ | e
    · simpa [stepSim, he, hp] using h
    · by_cases ht : e.time ≤ P.stop
      · have hst : stepSim P s
            = exec P { s with evs := s.evs.erase e, now := e.time } e := by
          simp [stepSim, he, hp, ht]
        rw [hst]
        exact engineInv_exec P hgc s e (pickMin_mem hp) h
      · simpa [stepSim, he, hp, ht] using h

theorem engineInv_init (P : EngineParams) : EngineInv P initSim := by
  refine ⟨rfl, Or.inl ⟨rfl, rfl, rfl, rfl⟩, ?_⟩
  intro p hp
  exact Or.inl ⟨by simpa [initSim] using hp, by simp [custTok, initSim]; omega,
    rfl, rfl⟩

theorem engineInv_runFuel (P : EngineParams)
    (hgc : P.gclock ≠ GlobalClock.unbound) :
    ∀ (n : ℕ) (s : SimState), EngineInv P s → EngineInv P (runFuel P n s) := by
  intro n
  induction n with
  | zero => intro s h; exact h
  | succ n ih => intro s h; exact ih _ (engineInv_stepSim P hgc s h)

/-- Claim C1: in every reachable state of a run, each customer process is
at one of exactly four lifecycle stages, so its per-process action trace is
a stage of the canonical sequence: entry log and acquire stamped with the
arrival time (the simulated time the customer started), then exactly one
sleep for a drawn service duration, then the pre-release log at the release
time, the release, and - when a collector is wired - exactly one recorded
sample equal to release time minus arrival time, recorded by the customer
itself.  In particular a customer records at most one sample, and exactly
one if and only if it has performed its release. -/
theorem customer_lifecycle_trace (P : EngineParams)
    (hgc : P.gclock ≠ GlobalClock.unbound) (n : ℕ) (p : ℕ) (hp : 1 ≤ p) :
    CustStage P.collect p (custTrace p (runFuel P n initSim))
    ∧ ((custTrace p (runFuel P n initSim)).filter Act.isRecord).length ≤ 1
    ∧ (P.collect = true →
        (((custTrace p (runFuel P n initSim)).filter Act.isRecord).length = 1
          ↔ Act.releaseA p ∈ custTrace p (runFuel P n initSim))) := by
  obtain ⟨-, -, hcust⟩ := engineInv_runFuel P hgc n initSim (engineInv_init P)
  have hc := hcust p hp
  unfold CustOk at hc
  rcases hc with ⟨-, -, -, htr⟩ | ⟨t, sq, -, -, htr, -⟩
    | ⟨sh, a, nb, -, -, htr, -⟩ | ⟨t, sq, sh, a, nb, -, -, htr, -⟩
    | ⟨t, sq, sh, a, nb, d, -, -, htr, -⟩
    | ⟨sh, a, nb, d, sh2, r, nb2, -, -, htr, -⟩
  · rw [htr]
    exact ⟨Or.inl rfl, by simp, fun _ => by simp [Act.isRecord]⟩
  · rw [htr]
    exact ⟨Or.inl rfl, by simp, fun _ => by simp [Act.isRecord]⟩
  · rw [htr]
    refine ⟨Or.inr (Or.inl ⟨sh, a, nb, rfl⟩), ?_, fun _ => ?_⟩ <;>
      simp [shapeAcq, Act.isRecord]
  · rw [htr]
    refine ⟨Or.inr (Or.inl ⟨sh, a, nb, rfl⟩), ?_, fun _ => ?_⟩ <;>
      simp [shapeAcq, Act.isRecord]
  · rw [htr]
    refine ⟨Or.inr (Or.inr (Or.inl ⟨sh, a, nb, d, rfl⟩)), ?_, fun _ => ?_⟩ <;>
      simp [shapeSleep, shapeAcq, Act.isRecord]
  · rw [htr]
    refine ⟨Or.inr (Or.inr (Or.inr ⟨sh, a, nb, d, sh2, r, nb2, rfl⟩)), ?_,
      fun hcol => ?_⟩
    · by_cases hcol : P.collect = true <;>
        simp [shapeFull, shapeSleep, shapeAcq, Act.isRecord, hcol]
    · simp [shapeFull, shapeSleep, shapeAcq, Act.isRecord, hcol]

/-- Witness for claim C1: instantiated at the concrete parameters, fuel 0
and customer 1. -/
theorem customer_lifecycle_trace_witness :
    Ptest.gclock ≠ GlobalClock.unbound
    ∧ CustStage Ptest.collect 1 (custTrace 1 (runFuel Ptest 0 initSim)) := by
  have hg : Ptest.gclock ≠ GlobalClock.unbound := by simp [Ptest]
  exact ⟨hg, (customer_lifecycle_trace Ptest hg 0 1 le_rfl).1⟩

/-- Claim C8: in every reachable state of a run, the arrival generator
(process 0) has exactly one pending continuation - the loop never
terminates - namely the initial sleep or the continuation of iteration k
scheduled at the sum of the first k+1 inter-arrival draws, and its trace is
the canonical loop trace: one sleep for a drawn inter-arrival duration then
exactly one spawned customer per iteration, rescheduling itself immediately
(its wake-up time is the cumulative draw sum, independent of any customer).
Its lifetime is bounded only by the run stop time: the scheduler refuses
any event beyond the stop time. -/
theorem arrival_generator_loop (P : EngineParams)
    (hgc : P.gclock ≠ GlobalClock.unbound) (n : ℕ) :
    ((custTok 0 (runFuel P n initSim) = [⟨0, 0, 0, .genArrSleep 0⟩]
        ∧ custTrace 0 (runFuel P n initSim) = [])
      ∨ (∃ k sq, custTok 0 (runFuel P n initSim)
            = [⟨cumIat P (k + 1), sq, 0, .genArrSpawn k⟩]
          ∧ custTrace 0 (runFuel P n initSim) = genCanon P k
          ∧ (runFuel P n initSim).nextPid = k + 1))
    ∧ (∀ (s : SimState) (e : Ev), pickMin s.evs = some e →
        ¬ e.time ≤ P.stop → stepSim P s = s)
    ∧ (∀ k, genCanon P (k + 1)
        = genCanon P k
          ++ [.spawnA 0 (k + 1), .sleepA 0 .interArrival (P.iat (k + 1))])
    ∧ (∀ k, cumIat P (k + 1) = cumIat P k + P.iat k) := by
  obtain ⟨-, hgen, -⟩ := engineInv_runFuel P hgc n initSim (engineInv_init P)
  refine ⟨?_, ?_, genCanon_succ P, fun k => rfl⟩
  · rcases hgen with ⟨htok, -, htr, -⟩ | ⟨k, sq, htok, -, htr, hnp⟩
    · exact Or.inl ⟨htok, htr⟩
    · exact Or.inr ⟨k, sq, htok, htr, hnp⟩
  · intro s e hp ht
    by_cases he : s.err
    · simp [stepSim, he]
    · simp [stepSim, he, hp, ht]

/-- Witness for claim C8: instantiated at the concrete parameters and
fuel 0, where the generator is at its initial sleep. -/
theorem arrival_generator_loop_witness :
    Ptest.gclock ≠ GlobalClock.unbound
    ∧ (custTok 0 (runFuel Ptest 0 initSim) = [⟨0, 0, 0, .genArrSleep 0⟩]
        ∧ custTrace 0 (runFuel Ptest 0 initSim) = []
      ∨ (∃ k sq, custTok 0 (runFuel Ptest 0 initSim)
            = [⟨cumIat Ptest (k + 1), sq, 0, .genArrSpawn k⟩]
          ∧ custTrace 0 (runFuel Ptest 0 initSim) = genCanon Ptest k
          ∧ (runFuel Ptest 0 initSim).nextPid = k + 1)) := by
  have hg : Ptest.gclock ≠ GlobalClock.unbound := by simp [Ptest]
  exact ⟨hg, (arrival_generator_loop Ptest hg 0).1⟩
